import Mathlib

/-!
# metadata-retrieval: in-memory store, run lifecycle and parallel download

A shallow embedding of

* `testutils/memory.go`   : the `Memory` storer,
* `examples/cmd/main.go`  : `DownloaderCmd.ExecuteBody`, `DownloaderCmd.commit`,
  `DownloaderCmd.buildDownloadersPool` and `Ghsync.downloadParallel`.

Go `error` values are `Option String` (`none` is `nil`, `some t` is an error
whose `Error()` text is `t`).  Log lines are not modelled.
-/

namespace Testutils

/-! ## `testutils/memory.go` -/

/-- The fields of `graphql.Organization` the store reads. -/
structure Organization where
  Login : String
  deriving DecidableEq, Repr

/-- The fields of `graphql.RepositoryFields` the store reads. -/
structure RepositoryFields where
  OwnerLogin : String
  Name : String
  deriving DecidableEq, Repr

/-- The fields of `graphql.UserExtended` the store reads. -/
structure UserExtended where
  Login : String
  deriving DecidableEq, Repr

/-- The fields of `graphql.Issue` the store reads. -/
structure Issue where
  Number : Int
  Title : String
  deriving DecidableEq, Repr

/-- The fields of `graphql.IssueComment` the store reads. -/
structure IssueComment where
  AuthorLogin : String
  CreatedAt : Nat
  Body : String
  deriving DecidableEq, Repr

/-- The fields of `graphql.PullRequest` the store reads. -/
structure PullRequest where
  Number : Int
  Title : String
  deriving DecidableEq, Repr

/-- The fields of `graphql.PullRequestReview` the store reads. -/
structure PullRequestReview where
  AuthorLogin : String
  SubmittedAt : Nat
  Body : String
  deriving DecidableEq, Repr

/-- The fields of `graphql.PullRequestReviewComment` the store reads. -/
structure PullRequestReviewComment where
  AuthorLogin : String
  CreatedAt : Nat
  Body : String
  deriving DecidableEq, Repr

/-- The `Memory` struct.  The two pointer fields are `none` while nil; a slice
is the list of the (non-nil) objects its pointers refer to. -/
structure Memory where
  Organization : Option Organization
  Repository : Option RepositoryFields
  Topics : List String
  Users : List UserExtended
  Issues : List Issue
  IssueComments : List IssueComment
  PRs : List PullRequest
  PRComments : List IssueComment
  PRReviews : List PullRequestReview
  PRReviewComments : List PullRequestReviewComment
  deriving DecidableEq, Repr

/-- The zero value `Memory{}`. -/
def Memory.zero : Memory :=
  { Organization := none, Repository := none, Topics := [], Users := [], Issues := [],
    IssueComments := [], PRs := [], PRComments := [], PRReviews := [],
    PRReviewComments := [] }

/-- `Memory.SaveOrganization`: returns the error and the store after the call. -/
def Memory.SaveOrganization (s : Memory) (organization : Testutils.Organization) :
    Option String × Memory :=
  (none, { s with Organization := some organization, Users := [] })

/-- `Memory.SaveUser`. -/
def Memory.SaveUser (s : Memory) (_orgID : Int) (_orgLogin : String) (user : UserExtended) :
    Option String × Memory :=
  (none, { s with Users := s.Users ++ [user] })

/-- `Memory.SaveRepository`. -/
def Memory.SaveRepository (s : Memory) (repository : RepositoryFields) (topics : List String) :
    Option String × Memory :=
  (none, { s with
    Repository := some repository
    Topics := topics
    Issues := []
    IssueComments := []
    PRs := []
    PRComments := []
    PRReviews := []
    PRReviewComments := [] })

/-- `Memory.SaveIssue`. -/
def Memory.SaveIssue (s : Memory) (_repositoryOwner _repositoryName : String) (issue : Issue)
    (_assignees _labels : List String) : Option String × Memory :=
  (none, { s with Issues := s.Issues ++ [issue] })

/-- `Memory.SaveIssueComment`. -/
def Memory.SaveIssueComment (s : Memory) (_repositoryOwner _repositoryName : String)
    (_issueNumber : Int) (comment : IssueComment) : Option String × Memory :=
  (none, { s with IssueComments := s.IssueComments ++ [comment] })

/-- `Memory.SavePullRequest`. -/
def Memory.SavePullRequest (s : Memory) (_repositoryOwner _repositoryName : String)
    (pr : PullRequest) (_assignees _labels : List String) : Option String × Memory :=
  (none, { s with PRs := s.PRs ++ [pr] })

/-- `Memory.SavePullRequestComment`. -/
def Memory.SavePullRequestComment (s : Memory) (_repositoryOwner _repositoryName : String)
    (_pullRequestNumber : Int) (comment : IssueComment) : Option String × Memory :=
  (none, { s with PRComments := s.PRComments ++ [comment] })

/-- `Memory.SavePullRequestReview`. -/
def Memory.SavePullRequestReview (s : Memory) (_repositoryOwner _repositoryName : String)
    (_pullRequestNumber : Int) (review : PullRequestReview) : Option String × Memory :=
  (none, { s with PRReviews := s.PRReviews ++ [review] })

/-- `Memory.SavePullRequestReviewComment`. -/
def Memory.SavePullRequestReviewComment (s : Memory) (_repositoryOwner _repositoryName : String)
    (_pullRequestNumber _pullRequestReviewID : Int) (comment : PullRequestReviewComment) :
    Option String × Memory :=
  (none, { s with PRReviewComments := s.PRReviewComments ++ [comment] })

/-- `Memory.Begin` ("a noop method at the moment"). -/
def Memory.Begin (s : Memory) : Option String × Memory := (none, s)

/-- `Memory.Commit` ("a noop method at the moment"). -/
def Memory.Commit (s : Memory) : Option String × Memory := (none, s)

/-- `Memory.Rollback` ("a noop method at the moment"). -/
def Memory.Rollback (s : Memory) : Option String × Memory := (none, s)

/-- `Memory.Version` ("a noop method at the moment"): it returns nothing and
leaves the store as it is. -/
def Memory.Version (s : Memory) (_v : Int) : Memory := s

/-- `Memory.SetActiveVersion` ("a noop method at the moment"). -/
def Memory.SetActiveVersion (s : Memory) (_v : Int) : Option String × Memory := (none, s)

/-- `Memory.Cleanup` ("a noop method at the moment"). -/
def Memory.Cleanup (s : Memory) (_currentVersion : Int) : Option String × Memory := (none, s)

/-- One call on the store, with its arguments. -/
inductive Op
  | saveOrganization (organization : Organization)
  | saveUser (orgID : Int) (orgLogin : String) (user : UserExtended)
  | saveRepository (repository : RepositoryFields) (topics : List String)
  | saveIssue (owner name : String) (issue : Issue) (assignees labels : List String)
  | saveIssueComment (owner name : String) (issueNumber : Int) (comment : IssueComment)
  | savePullRequest (owner name : String) (pr : PullRequest) (assignees labels : List String)
  | savePullRequestComment (owner name : String) (number : Int) (comment : IssueComment)
  | savePullRequestReview (owner name : String) (number : Int) (review : PullRequestReview)
  | savePullRequestReviewComment (owner name : String) (number reviewID : Int)
      (comment : PullRequestReviewComment)
  | version (v : Int)
  | setActiveVersion (v : Int)
  | cleanup (currentVersion : Int)
  deriving DecidableEq, Repr

/-- The store after one call. -/
def Memory.apply (s : Memory) : Op → Memory
  | .saveOrganization o => (s.SaveOrganization o).2
  | .saveUser i l u => (s.SaveUser i l u).2
  | .saveRepository r t => (s.SaveRepository r t).2
  | .saveIssue o n i a l => (s.SaveIssue o n i a l).2
  | .saveIssueComment o n k c => (s.SaveIssueComment o n k c).2
  | .savePullRequest o n p a l => (s.SavePullRequest o n p a l).2
  | .savePullRequestComment o n k c => (s.SavePullRequestComment o n k c).2
  | .savePullRequestReview o n k r => (s.SavePullRequestReview o n k r).2
  | .savePullRequestReviewComment o n k r c => (s.SavePullRequestReviewComment o n k r c).2
  | .version v => s.Version v
  | .setActiveVersion v => (s.SetActiveVersion v).2
  | .cleanup v => (s.Cleanup v).2

/-- The store after a sequence of calls, first call first. -/
def Memory.run (s : Memory) (ops : List Op) : Memory := ops.foldl Memory.apply s

/-- The users handed to `SaveUser` in a sequence of calls, in call order. -/
def savedUsers : List Op → List UserExtended
  | [] => []
  | .saveUser _ _ u :: ops => u :: savedUsers ops
  | _ :: ops => savedUsers ops

/-- The call is `SaveOrganization`. -/
def Op.isSaveOrganization : Op → Bool
  | .saveOrganization _ => true
  | _ => false

/-- The six per-repository collections are all empty. -/
def Memory.repoCollectionsEmpty (s : Memory) : Prop :=
  s.Issues = [] ∧ s.IssueComments = [] ∧ s.PRs = [] ∧ s.PRComments = [] ∧
    s.PRReviews = [] ∧ s.PRReviewComments = []

/-- A run that writes issues under versions: for every pair `(v, x)` in
order, `Version(v)` is called and then `SaveIssue(x)`. -/
def writeUnderVersions (s : Memory) (rows : List (Int × Issue)) : Memory :=
  rows.foldl (fun m r => ((m.Version r.1).SaveIssue "owner" "repo" r.2 [] []).2) s

/-- The issues among `rows` that were written under version `v`, in order:
what a cleanup that "deletes every row whose version differs" from `v` would
leave of them. -/
def rowsOfVersion (rows : List (Int × Issue)) (v : Int) : List Issue :=
  (rows.filter (fun r => r.1 = v)).map (fun r => r.2)

end Testutils

namespace Cmd

/-! ## `examples/cmd/main.go`: the run lifecycle -/

/-- The `DownloaderCmd` struct (command-line options). -/
structure DownloaderCmd where
  LogHTTP : Bool
  DB : String
  Tokens : List String
  Version : Int
  Cleanup : Bool
  deriving DecidableEq, Repr

/-- The calls `ExecuteBody` makes on its collaborators (database driver,
migrations, downloaders pool, body function, downloader), in call order. -/
inductive Call
  | sqlOpen
  | dbClose
  | dbPing
  | migrate
  | newDownloader (token : Option String)
  | newDownloadersPool (size : Nat)
  | poolBegin
  | body
  | poolEnd
  | setCurrent (version : Int)
  | cleanup (version : Int)
  deriving DecidableEq, Repr

/-- What each collaborator returns when it is called: the error of every call
that can fail.  `newDownloader none` is `github.NewDownloader(nil, storer)`,
`newDownloader (some t)` the downloader built for token `t`. -/
structure Env where
  sqlOpen : Option String
  dbPing : Option String
  migrate : Option String
  newDownloader : Option String → Option String
  newDownloadersPool : Nat → Option String
  poolBegin : Option String
  body : Option String
  poolEnd : Option String
  setCurrent : Int → Option String
  cleanup : Int → Option String

/-- Modelled from the spec: `NewDownloadersPool`, which is not in the sources;
*Construct(credentials)* "fails with ConfigError if the list is empty", and
otherwise returns what the environment says. -/
def NewDownloadersPool (env : Env) (downloaders : Nat) : Option String :=
  if downloaders = 0 then some "ConfigError" else env.newDownloadersPool downloaders

/-- The loop of `DownloaderCmd.buildDownloadersPool` over the remaining tokens,
`built` downloaders having been appended so far: the error and the calls made. -/
def buildLoop (env : Env) : List String → Nat → Option String × List Call
  | [], built => (NewDownloadersPool env built, [.newDownloadersPool built])
  | t :: ts, built =>
    match env.newDownloader (some t) with
    | some e => (some e, [.newDownloader (some t)])
    | none =>
      let r := buildLoop env ts (built + 1)
      (r.1, .newDownloader (some t) :: r.2)

/-- `DownloaderCmd.buildDownloadersPool`: the error and the calls made. -/
def DownloaderCmd.buildDownloadersPool (c : DownloaderCmd) (env : Env) :
    Option String × List Call :=
  buildLoop env c.Tokens 0

/-- `DownloaderCmd.commit`: the error and the calls made. -/
def DownloaderCmd.commit (c : DownloaderCmd) (env : Env) : Option String × List Call :=
  match env.setCurrent c.Version with
  | some e => (some e, [.setCurrent c.Version])
  | none =>
    if c.Cleanup then
      (env.cleanup c.Version, [.setCurrent c.Version, .cleanup c.Version])
    else
      (none, [.setCurrent c.Version])

/-- `DownloaderCmd.ExecuteBody` from line 259 on (the storer is set up): the
error and the calls made. -/
def DownloaderCmd.executeWithStorer (c : DownloaderCmd) (env : Env) :
    Option String × List Call :=
  let pool := c.buildDownloadersPool env
  match pool.1 with
  | some e => (some e, pool.2)
  | none =>
    match env.poolBegin with
    | some e => (some e, pool.2 ++ [.poolBegin])
    | none =>
      match env.body with
      | some e => (some e, pool.2 ++ [.poolBegin, .body])
      | none =>
        -- `stats, err := downloadersPool.End(ctx)`: `err` is assigned here and
        -- assigned again by `github.NewDownloader` below, with no test between
        let _err := env.poolEnd
        match env.newDownloader none with
        | some e => (some e, pool.2 ++ [.poolBegin, .body, .poolEnd, .newDownloader none])
        | none =>
          let r := c.commit env
          (r.1, pool.2 ++ [.poolBegin, .body, .poolEnd, .newDownloader none] ++ r.2)

/-- `DownloaderCmd.ExecuteBody`: the error it returns and the calls it made. -/
def DownloaderCmd.ExecuteBody (c : DownloaderCmd) (env : Env) : Option String × List Call :=
  if c.DB = "" then
    c.executeWithStorer env
  else
    match env.sqlOpen with
    | some e => (some e, [.sqlOpen])
    | none =>
      -- `defer db.Close()`: the last call of every path below
      match env.dbPing with
      | some e => (some e, [.sqlOpen, .dbPing, .dbClose])
      | none =>
        match env.migrate with
        | some e => (some e, [.sqlOpen, .dbPing, .migrate, .dbClose])
        | none =>
          let r := c.executeWithStorer env
          (r.1, [.sqlOpen, .dbPing, .migrate] ++ r.2 ++ [.dbClose])

/-- The call belongs to the set-up of a run: opening and migrating the
database, building the downloaders and their pool. -/
def Call.isPrelude : Call → Bool
  | .sqlOpen => true
  | .dbPing => true
  | .migrate => true
  | .newDownloader (some _) => true
  | .newDownloadersPool _ => true
  | _ => false

/-- In the sequence `calls`, call `b` occurs and `a` is made before it. -/
def calledBefore (a b : Call) (calls : List Call) : Prop :=
  ∃ pre post, calls = pre ++ b :: post ∧ a ∈ pre

/-- The calls of a run from `Begin` on (`post`) and the error returned, by the
point at which the run ends. -/
def Lifecycle (c : DownloaderCmd) (env : Env) (err : Option String) (post : List Call) : Prop :=
  (post = [] ∧ err ≠ none) ∨
  (∃ e, post = [.poolBegin] ∧ env.poolBegin = some e ∧ err = some e) ∨
  (∃ e, post = [.poolBegin, .body] ∧ env.poolBegin = none ∧ env.body = some e ∧ err = some e) ∨
  (env.poolBegin = none ∧ env.body = none ∧
    ((post = [.poolBegin, .body, .poolEnd, .newDownloader none] ∧ err ≠ none) ∨
     (∃ e, post = [.poolBegin, .body, .poolEnd, .newDownloader none, .setCurrent c.Version] ∧
        env.setCurrent c.Version = some e ∧ err = some e) ∨
     (post = [.poolBegin, .body, .poolEnd, .newDownloader none, .setCurrent c.Version] ∧
        env.setCurrent c.Version = none ∧ c.Cleanup = false ∧ err = none) ∨
     (post = [.poolBegin, .body, .poolEnd, .newDownloader none, .setCurrent c.Version,
              .cleanup c.Version] ∧
        env.setCurrent c.Version = none ∧ c.Cleanup = true ∧ err = env.cleanup c.Version)))

/-- An environment in which every call succeeds except `downloadersPool.End`. -/
def envEndFails : Env :=
  { sqlOpen := none, dbPing := none, migrate := none, newDownloader := fun _ => none,
    newDownloadersPool := fun _ => none, poolBegin := none, body := none,
    poolEnd := some "commit failed", setCurrent := fun _ => none, cleanup := fun _ => none }

/-- A command writing to stdout with one token, version 3, no cleanup. -/
def cmdStdout : DownloaderCmd :=
  { LogHTTP := false, DB := "", Tokens := ["t1"], Version := 3, Cleanup := false }

end Cmd

namespace Ghsync

/-! ## `examples/cmd/main.go`: `Ghsync.downloadParallel`

The goroutines of one call are interleaved by a scheduler: a state holds the
program counter of the dispatching loop and of every goroutine started so far,
and the shared variables (`wg`, `ctx`, `errCh`, `done`, the pool); one action
is one atomic step of one of them.  Goroutine `i` is the one started in
iteration `i` of `for _, p := range params`, so its `p` is `params[i]`. -/

/-- The arguments of one call of `downloadParallel` that its control flow
depends on.  `downloadFn c d p` is the error `downloadFn(ctx, d, p)` returns
when `ctx.Err() != nil` is `c` at the time it returns, on downloader number
`d`.  `size` is `dp.Size`. -/
structure Config where
  size : Nat
  resourceType : String
  params : List String
  downloadFn : Bool → Nat → String → Option String

/-- Where the body of `downloadParallel` stands. -/
inductive MainPc
  /-- About to run iteration `i` of the loop (`wg.Add(1)`, `go func`), or to
  leave the loop when the range is exhausted. -/
  | spawn (i : Nat)
  /-- Goroutine `i` has been started; about to test `ctx.Err() != nil`. -/
  | check (i : Nat)
  /-- In `wg.Wait()`. -/
  | wait
  /-- About to run the final `select`. -/
  | select
  /-- Returned `err`. -/
  | returned (err : Option String)
  deriving DecidableEq, Repr

/-- Where one goroutine stands. -/
inductive UnitPc
  /-- In `dp.WithDownloader`, waiting for a free downloader. -/
  | acquire
  /-- Holding downloader `d`; `downloadFn(ctx, d, p)` has been called and has
  not returned. -/
  | running (d : Nat)
  /-- `downloadFn` returned `err`; downloader `d` is still held. -/
  | release (d : Nat) (err : Option String)
  /-- `WithDownloader` returned `err`; about to test `ctx.Err() != nil`. -/
  | checkCtx (err : Option String)
  /-- About to run `errCh <- msg`. -/
  | send (msg : String)
  /-- About to run `cancel()`. -/
  | cancel
  /-- About to run the deferred `wg.Done()`. -/
  | exit
  /-- Finished. -/
  | done
  deriving DecidableEq, Repr

/-- The shared state of one call, with two history variables (`calls`,
`results`) that no step reads. -/
structure State where
  main : MainPc
  units : List UnitPc
  /-- The counter of `wg`. -/
  wg : Nat
  /-- Whether `ctx.Err() != nil`. -/
  cancelled : Bool
  /-- The buffer of `errCh`, oldest first; its capacity is `dp.Size`. -/
  errCh : List String
  /-- The busy flag of each downloader of the pool. -/
  busy : List Bool
  /-- The progress counter `done`. -/
  done : Nat
  /-- History: the positions whose `downloadFn` call has started, in order. -/
  calls : List Nat
  /-- History: the position and the error of every `downloadFn` call that has
  returned, in order. -/
  results : List (Nat × Option String)
  deriving DecidableEq, Repr

/-- One atomic step of the scheduler: the body of `downloadParallel`, goroutine
`i` taking the free downloader `d`, or goroutine `i` otherwise. -/
inductive Action
  | main
  | acquire (i d : Nat)
  | unit (i : Nat)
  deriving DecidableEq, Repr

/-- The error sent to `errCh`:
`fmt.Errorf("error while downloading %s: %v", resourceType, err)`. -/
def wrapError (resourceType err : String) : String :=
  "error while downloading " ++ resourceType ++ ": " ++ err

/-- The state in which the loop is entered. -/
def init (cfg : Config) : State :=
  { main := .spawn 0, units := [], wg := 0, cancelled := false, errCh := [],
    busy := List.replicate cfg.size false, done := 0, calls := [], results := [] }

/-- One step of the body of `downloadParallel`. -/
def stepMain (cfg : Config) (s : State) : Option State :=
  match s.main with
  | .spawn i =>
    match cfg.params[i]? with
    | some _ => some { s with main := .check i, units := s.units ++ [.acquire], wg := s.wg + 1 }
    | none => some { s with main := .wait }
  | .check i =>
    if s.cancelled then some { s with main := .wait }
    else some { s with main := .spawn (i + 1) }
  | .wait => if s.wg = 0 then some { s with main := .select } else none
  | .select =>
    -- the deferred `cancel()` runs on return
    match s.errCh with
    | err :: rest => some { s with main := .returned (some err), errCh := rest, cancelled := true }
    | [] => some { s with main := .returned none, cancelled := true }
  | .returned _ => none

/-- Modelled from the spec: the acquiring half of `DownloadersPool.WithDownloader`,
which is not in the sources ("blocks the caller until some worker is free, marks
it busy, exclusively runs `task(worker)`"): goroutine `i` takes downloader `d`
if it is free, and its task calls `downloadFn`. -/
def stepAcquire (_cfg : Config) (s : State) (i d : Nat) : Option State :=
  match s.units[i]?, s.busy[d]? with
  | some .acquire, some false =>
    some { s with units := s.units.set i (.running d), busy := s.busy.set d true,
                  calls := s.calls ++ [i] }
  | _, _ => none

/-- Modelled from the spec: the releasing half of `DownloadersPool.WithDownloader`,
which is not in the sources ("then marks it free and returns `task`'s error (if
any) unchanged"): goroutine `i` gives downloader `d` back and goes on with the
error `err` of its task. -/
def stepRelease (s : State) (i d : Nat) (err : Option String) : State :=
  { s with units := s.units.set i (.checkCtx err), busy := s.busy.set d false }

/-- One step of goroutine `i` other than taking a downloader. -/
def stepUnit (cfg : Config) (s : State) (i : Nat) : Option State :=
  match s.units[i]? with
  | some (.running d) =>
    match cfg.params[i]? with
    | some p =>
      let err := cfg.downloadFn s.cancelled d p
      some { s with units := s.units.set i (.release d err), results := s.results ++ [(i, err)] }
    | none => none
  | some (.release d err) => some (stepRelease s i d err)
  | some (.checkCtx err) =>
    if s.cancelled then some { s with units := s.units.set i .exit }
    else
      match err with
      | some e => some { s with units := s.units.set i (.send (wrapError cfg.resourceType e)) }
      | none => some { s with units := s.units.set i .exit, done := (s.done + 1) % 2 ^ 64 }
  | some (.send msg) =>
    if s.errCh.length < cfg.size then
      some { s with units := s.units.set i .cancel, errCh := s.errCh ++ [msg] }
    else none
  | some .cancel => some { s with units := s.units.set i .exit, cancelled := true }
  | some .exit => some { s with units := s.units.set i .done, wg := s.wg - 1 }
  | _ => none

/-- One step of the scheduler; `none` when the action is not enabled (the
goroutine does not exist, has finished, or is blocked). -/
def step (cfg : Config) (s : State) : Action → Option State
  | .main => stepMain cfg s
  | .acquire i d => stepAcquire cfg s i d
  | .unit i => stepUnit cfg s i

/-- The state after a schedule (first action first), from state `s`; `none`
when some action of the schedule is not enabled when its turn comes. -/
def exec (cfg : Config) (s : State) : List Action → Option State
  | [] => some s
  | a :: as =>
    match step cfg s a with
    | some s' => exec cfg s' as
    | none => none

/-- The state after a schedule from the start of `downloadParallel`. -/
def run (cfg : Config) (sched : List Action) : Option State := exec cfg (init cfg) sched

/-- The result of `Ghsync.downloadParallel` under a schedule: `some err` when the
schedule runs the call to its return and `err` is what it returns, `none` when
the schedule cannot be executed or stops before the return. -/
def downloadParallel (cfg : Config) (sched : List Action) : Option (Option String) :=
  match run cfg sched with
  | some s =>
    match s.main with
    | .returned err => some err
    | _ => none
  | none => none

/-- No action is enabled. -/
def Stuck (cfg : Config) (s : State) : Prop := ∀ a, step cfg s a = none

/-- The body of `downloadParallel` has returned. -/
def State.isReturned (s : State) : Bool :=
  match s.main with
  | .returned _ => true
  | _ => false

/-- Text `t` occurs in text `s`. -/
def occursIn (t s : String) : Prop := t.data <:+: s.data

instance (t s : String) : Decidable (occursIn t s) := by
  unfold occursIn; infer_instance

/-- `Ghsync.downloadOrgs`: the configuration it hands to `downloadParallel`. -/
def downloadOrgs (size : Nat) (orgs : List String)
    (downloadOrganization : Bool → Nat → String → Option String) : Config :=
  { size := size, resourceType := "org", params := orgs, downloadFn := downloadOrganization }

/-- The steps of the scheduler as a relation: `Trans cfg s a s'` when action
`a` is enabled in `s` and leads to `s'`; one constructor per branch of `step`. -/
inductive Trans (cfg : Config) (s : State) : Action → State → Prop
  | spawn (i : Nat) (p : String) (hm : s.main = .spawn i) (hp : cfg.params[i]? = some p) :
      Trans cfg s .main
        { s with main := .check i, units := s.units ++ [.acquire], wg := s.wg + 1 }
  | loopEnd (i : Nat) (hm : s.main = .spawn i) (hp : cfg.params[i]? = none) :
      Trans cfg s .main { s with main := .wait }
  | leave (i : Nat) (hm : s.main = .check i) (hc : s.cancelled = true) :
      Trans cfg s .main { s with main := .wait }
  | next (i : Nat) (hm : s.main = .check i) (hc : s.cancelled = false) :
      Trans cfg s .main { s with main := .spawn (i + 1) }
  | join (hm : s.main = .wait) (hw : s.wg = 0) :
      Trans cfg s .main { s with main := .select }
  | selectErr (err : String) (rest : List String) (hm : s.main = .select)
      (he : s.errCh = err :: rest) :
      Trans cfg s .main
        { s with main := .returned (some err), errCh := rest, cancelled := true }
  | selectNone (hm : s.main = .select) (he : s.errCh = []) :
      Trans cfg s .main { s with main := .returned none, cancelled := true }
  | acquire (i d : Nat) (hu : s.units[i]? = some .acquire) (hb : s.busy[d]? = some false) :
      Trans cfg s (.acquire i d)
        { s with units := s.units.set i (.running d), busy := s.busy.set d true,
                 calls := s.calls ++ [i] }
  | jobReturn (i d : Nat) (p : String) (hu : s.units[i]? = some (.running d))
      (hp : cfg.params[i]? = some p) :
      Trans cfg s (.unit i)
        { s with units := s.units.set i (.release d (cfg.downloadFn s.cancelled d p)),
                 results := s.results ++ [(i, cfg.downloadFn s.cancelled d p)] }
  | release (i d : Nat) (err : Option String) (hu : s.units[i]? = some (.release d err)) :
      Trans cfg s (.unit i)
        { s with units := s.units.set i (.checkCtx err), busy := s.busy.set d false }
  | stopped (i : Nat) (err : Option String) (hu : s.units[i]? = some (.checkCtx err))
      (hc : s.cancelled = true) :
      Trans cfg s (.unit i) { s with units := s.units.set i .exit }
  | failed (i : Nat) (e : String) (hu : s.units[i]? = some (.checkCtx (some e)))
      (hc : s.cancelled = false) :
      Trans cfg s (.unit i)
        { s with units := s.units.set i (.send (wrapError cfg.resourceType e)) }
  | finished (i : Nat) (hu : s.units[i]? = some (.checkCtx none)) (hc : s.cancelled = false) :
      Trans cfg s (.unit i)
        { s with units := s.units.set i .exit, done := (s.done + 1) % 2 ^ 64 }
  | send (i : Nat) (msg : String) (hu : s.units[i]? = some (.send msg))
      (hlen : s.errCh.length < cfg.size) :
      Trans cfg s (.unit i) { s with units := s.units.set i .cancel, errCh := s.errCh ++ [msg] }
  | cancel (i : Nat) (hu : s.units[i]? = some .cancel) :
      Trans cfg s (.unit i) { s with units := s.units.set i .exit, cancelled := true }
  | exit (i : Nat) (hu : s.units[i]? = some .exit) :
      Trans cfg s (.unit i) { s with units := s.units.set i .done, wg := s.wg - 1 }

/-- How far a goroutine has got: every step of a goroutine raises its rank. -/
def UnitPc.rank : UnitPc → Nat
  | .acquire => 0
  | .running _ => 1
  | .release _ _ => 2
  | .checkCtx _ => 3
  | .send _ => 4
  | .cancel => 5
  | .exit => 6
  | .done => 7

/-- How far the body of `downloadParallel` has got, for `n` parameters. -/
def MainPc.rank (n : Nat) : MainPc → Nat
  | .spawn i => 2 * i
  | .check i => 2 * i + 1
  | .wait => 2 * n + 1
  | .select => 2 * n + 2
  | .returned _ => 2 * n + 3

/-- The number of steps taken so far is at most this. -/
def State.progress (cfg : Config) (s : State) : Nat :=
  s.main.rank cfg.params.length + (s.units.map UnitPc.rank).sum

/-- Whether the goroutine still owes its `wg.Done()`: 1 if so, else 0. -/
def UnitPc.live : UnitPc → Nat
  | .done => 0
  | _ => 1

/-- Whether the goroutine has called `downloadFn`: 1 if so, else 0. -/
def UnitPc.invoked : UnitPc → Nat
  | .acquire => 0
  | _ => 1

/-- Whether the goroutine holds downloader `d`. -/
def UnitPc.holds (d : Nat) : UnitPc → Bool
  | .running d' => d' = d
  | .release d' _ => d' = d
  | _ => false

/-- Whether the goroutine carries an error of its job towards `errCh` or has
delivered one: it is past a failed `downloadFn` and before `exit`. -/
def UnitPc.reporting : UnitPc → Bool
  | .release _ (some _) => true
  | .checkCtx (some _) => true
  | .send _ => true
  | .cancel => true
  | _ => false

/-- Whether the goroutine is past its `errCh <- msg` or past the point where
it would have run it. -/
def UnitPc.pastSend : Option UnitPc → Nat
  | some .cancel => 1
  | some .exit => 1
  | some .done => 1
  | _ => 0

/-- The bookkeeping invariant of `downloadParallel`: how the goroutines
started so far relate to the loop, to `wg`, to the pool and to the history of
calls. -/
structure Inv (cfg : Config) (s : State) : Prop where
  len : s.units.length ≤ cfg.params.length
  atSpawn : ∀ i, s.main = .spawn i → s.units.length = i
  atCheck : ∀ i, s.main = .check i → s.units.length = i + 1
  wg : s.wg = (s.units.map UnitPc.live).sum
  joined : s.main = .select ∨ s.isReturned = true → s.wg = 0
  busyLen : s.busy.length = cfg.size
  held : ∀ d, s.busy[d]? = some true →
    ∃ (j : Nat) (u : UnitPc), s.units[j]? = some u ∧ u.holds d = true
  callsLen : s.calls.length = (s.units.map UnitPc.invoked).sum
  callsCount : ∀ i, s.calls.count i = ((s.units[i]?).map UnitPc.invoked).getD 0

/-- Every job other than the one at position `k` succeeds, on every
downloader and whatever the state of `ctx`. -/
def SucceedsExcept (cfg : Config) (k : Nat) : Prop :=
  ∀ j p, j ≠ k → cfg.params[j]? = some p → ∀ c d, cfg.downloadFn c d p = none

/-- What holds in every reachable state when only the job at position `k` can
fail: only goroutine `k` reports an error, `errCh` holds at most its one
message, only it cancels, and the loop ends early only after it. -/
structure InvK (cfg : Config) (k : Nat) (s : State) : Prop where
  clean : ∀ j u, j ≠ k → s.units[j]? = some u → u.reporting = false
  errLen : s.isReturned = false → s.errCh.length ≤ UnitPc.pastSend s.units[k]?
  cancelledK : s.cancelled = true →
    s.isReturned = true ∨ s.units[k]? = some .exit ∨ s.units[k]? = some .done
  allSpawned : s.main = .wait ∨ s.main = .select ∨ s.isReturned = true →
    s.units.length = cfg.params.length ∨ s.units[k]? = some .exit ∨ s.units[k]? = some .done

/-- What goroutine `k` carries when its job fails with `e`: the error its
`downloadFn` returned, or the message made of it. -/
def UnitPc.carries (resourceType e : String) : UnitPc → Prop
  | .release _ x => x = some e
  | .checkCtx x => x = some e
  | .send m => m = wrapError resourceType e
  | _ => True

/-- What holds in every reachable state when the job at position `k` fails
with `e` and is the only one that can fail. -/
structure InvOne (cfg : Config) (k : Nat) (e : String) (s : State) : Prop where
  carried : ∀ u, s.units[k]? = some u → u.carries cfg.resourceType e
  sent : s.isReturned = false → UnitPc.pastSend s.units[k]? = 1 →
    s.errCh = [wrapError cfg.resourceType e]
  result : ∀ r, s.main = .returned r → r = some (wrapError cfg.resourceType e)

/-- With no job that can fail: the two invariants for a `k` beyond the last
position, and "what has been returned is nil". -/
def AllOk (cfg : Config) (s : State) : Prop :=
  Inv cfg s ∧ InvK cfg cfg.params.length s ∧ ∀ r, s.main = .returned r → r = none

/-- Three organisations, two downloaders, every download succeeds. -/
def cfgOk : Config :=
  { size := 2, resourceType := "org", params := ["a", "b", "c"],
    downloadFn := fun _ _ _ => none }

/-- With exactly one failing job, at position `k` with error `e`: the three
invariants together. -/
def OneFails (cfg : Config) (k : Nat) (e : String) (s : State) : Prop :=
  Inv cfg s ∧ InvK cfg k s ∧ InvOne cfg k e s

/-- One organisation, `acme`, one downloader; the download fails with an error
whose text is `boom`. -/
def cfgAcme : Config :=
  downloadOrgs 1 ["acme"] (fun _ _ _ => some "boom")

/-- The only complete schedule of `cfgAcme`. -/
def schedAcme : List Action :=
  [.main, .main, .main, .acquire 0 0, .unit 0, .unit 0, .unit 0, .unit 0, .unit 0, .unit 0,
   .main, .main]

/-- Whether the goroutine carries an error of its job that it has not yet
sent or dropped. -/
def UnitPc.pending : UnitPc → Bool
  | .release _ (some _) => true
  | .checkCtx (some _) => true
  | .send _ => true
  | _ => false

/-- What goroutine `i` carries comes from the history of returns: the error
is one its `downloadFn` returned, the message is made of one. -/
def UnitPc.carriesFrom (resourceType : String) (i : Nat) (results : List (Nat × Option String)) :
    UnitPc → Prop
  | .release _ (some e) => (i, some e) ∈ results
  | .checkCtx (some e) => (i, some e) ∈ results
  | .send m => ∃ e, (i, some e) ∈ results ∧ m = wrapError resourceType e
  | _ => True

/-- Some call of `downloadFn` has returned an error. -/
def State.someJobFailed (s : State) : Prop := ∃ i e, (i, some e) ∈ s.results

/-- Text `m` is the wrapping of an error that some call of `downloadFn`
returned. -/
def State.wrapsJobError (cfg : Config) (s : State) (m : String) : Prop :=
  ∃ i e, (i, some e) ∈ s.results ∧ m = wrapError cfg.resourceType e

/-- What holds in every reachable state about the errors of the jobs, whatever
the jobs do: where an error that a job returned is on its way to the result. -/
structure InvR (cfg : Config) (s : State) : Prop where
  returnedJob : ∀ (i : Nat) (u : UnitPc), s.units[i]? = some u → 2 ≤ u.rank →
    ∃ err, (i, err) ∈ s.results
  carried : ∀ (i : Nat) (u : UnitPc), s.units[i]? = some u →
    u.carriesFrom cfg.resourceType i s.results
  chan : ∀ m ∈ s.errCh, s.wrapsJobError cfg m
  nonEmpty : s.isReturned = false →
    (s.cancelled = true ∨ ∃ i : Nat, s.units[i]? = some UnitPc.cancel) → s.errCh ≠ []
  failedR : s.isReturned = false → s.someJobFailed →
    s.errCh ≠ [] ∨ ∃ (i : Nat) (u : UnitPc), s.units[i]? = some u ∧ u.pending = true
  resultR : ∀ r, s.main = .returned r →
    (∀ x, r = some x → s.wrapsJobError cfg x) ∧ (r = none → ¬ s.someJobFailed)

/-- How many goroutines the loop can still start once `ctx` is cancelled: one
if it stands before `go func`, none if it stands before the test of `ctx.Err()`
or has left the loop. -/
def State.spawnBudget (s : State) : Nat :=
  match s.main with
  | .spawn _ => 1
  | _ => 0

/-- Whether the goroutine stands at `errCh <- msg`: 1 if so, else 0. -/
def UnitPc.sending : UnitPc → Nat
  | .send _ => 1
  | _ => 0

/-- Whether the goroutine has not yet passed its test of `ctx.Err()`. -/
def UnitPc.beforeTest : UnitPc → Bool
  | .acquire => true
  | .running _ => true
  | .release _ _ => true
  | .checkCtx _ => true
  | _ => false

/-- Goroutine `i` stands neither at `errCh <- msg` nor at `cancel()`. -/
def State.notReporting (s : State) (i : Nat) : Prop :=
  (∀ m, s.units[i]? ≠ some (.send m)) ∧ s.units[i]? ≠ some .cancel

/-- What holds in every reachable state, whatever the jobs do. -/
def Sound (cfg : Config) (s : State) : Prop := Inv cfg s ∧ InvR cfg s

/-- Two organisations, one downloader; the download of `a` fails, that of `b`
succeeds. -/
def cfgFirstFails : Config :=
  downloadOrgs 1 ["a", "b"] (fun _ _ org => if org = "a" then some "boom" else none)

/-- Both goroutines are started; goroutine 0 downloads, fails, sends its error
and cancels, while goroutine 1 is still waiting for the downloader. -/
def schedCancel : List Action :=
  [.main, .main, .main, .acquire 0 0, .unit 0, .unit 0, .unit 0, .unit 0, .unit 0]

/-- The state after `schedCancel`. -/
def stateCancel : State :=
  { main := .check 1, units := [.exit, .acquire], wg := 2, cancelled := true,
    errCh := ["error while downloading org: boom"], busy := [false], done := 0,
    calls := [0], results := [(0, some "boom")] }

/-- Both goroutines of `cfgBothFail` are started; goroutine 0 downloads, fails,
sends its error and cancels; then goroutine 1 takes the downloader, its download
fails and it gives the downloader back. -/
def schedStopped : List Action :=
  [.main, .main, .main, .acquire 0 0, .unit 0, .unit 0, .unit 0, .unit 0, .unit 0,
   .acquire 1 0, .unit 1, .unit 1]

/-- The state after `schedStopped`: goroutine 1 is about to test `ctx.Err()`
with the error of its job in hand. -/
def stateStopped : State :=
  { main := .check 1, units := [.exit, .checkCtx (some "boom b")], wg := 2, cancelled := true,
    errCh := ["error while downloading org: boom a"], busy := [false], done := 0,
    calls := [0, 1], results := [(0, some "boom a"), (1, some "boom b")] }

/-- Two organisations, one downloader; both downloads fail. -/
def cfgBothFail : Config :=
  downloadOrgs 1 ["a", "b"] (fun _ _ org => some ("boom " ++ org))

/-- Both goroutines are started; each in turn downloads, fails, gives the
downloader back and finds `ctx` not cancelled; then goroutine 0 sends its
error, cancels and finishes. -/
def schedBlocked : List Action :=
  [.main, .main, .main, .main, .main,
   .acquire 0 0, .unit 0, .unit 0, .unit 0,
   .acquire 1 0, .unit 1, .unit 1, .unit 1,
   .unit 0, .unit 0, .unit 0]

/-- The state after `schedBlocked`: goroutine 1 is at `errCh <- err` with the
buffer full, the body is in `wg.Wait()`. -/
def stateBlocked : State :=
  { main := .wait, units := [.done, .send "error while downloading org: boom b"], wg := 1,
    cancelled := true, errCh := ["error while downloading org: boom a"], busy := [false],
    done := 0, calls := [0, 1], results := [(0, some "boom a"), (1, some "boom b")] }

/-- Three organisations, two downloaders; every download fails. -/
def cfgAllFail : Config :=
  downloadOrgs 2 ["a", "b", "c"] (fun _ _ org => some ("boom " ++ org))

/-- All three goroutines are started; each downloads, fails, gives its
downloader back and finds `ctx` not cancelled; then goroutines 0 and 1 send,
cancel and finish. -/
def schedAllFail : List Action :=
  [.main, .main, .main, .main, .main, .main, .main,
   .acquire 0 0, .acquire 1 1, .unit 0, .unit 0, .unit 0, .unit 1, .unit 1, .unit 1,
   .acquire 2 0, .unit 2, .unit 2, .unit 2,
   .unit 0, .unit 1, .unit 0, .unit 1, .unit 0, .unit 1]

/-- The state after `schedAllFail`. -/
def stateAllFail : State :=
  { main := .wait, units := [.done, .done, .send "error while downloading org: boom c"],
    wg := 1, cancelled := true,
    errCh := ["error while downloading org: boom a", "error while downloading org: boom b"],
    busy := [false, false], done := 0, calls := [0, 1, 2],
    results := [(0, some "boom a"), (1, some "boom b"), (2, some "boom c")] }

end Ghsync

namespace Testutils

/-! ## The `Memory` store -/

theorem Memory.run_append (s : Memory) (ops ops' : List Op) :
    s.run (ops ++ ops') = (s.run ops).run ops' := by
  simp [Memory.run, List.foldl_append]

theorem Memory.run_saveIssue_issues (owner name : String) (as ls : List String)
    (xs : List Issue) (s : Memory) :
    (s.run (xs.map (fun x => Op.saveIssue owner name x as ls))).Issues = s.Issues ++ xs := by
  induction xs generalizing s with
  | nil => simp [Memory.run]
  | cons x xs ih =>
    have := ih (s.apply (Op.saveIssue owner name x as ls))
    simp only [Memory.run, List.map_cons, List.foldl_cons] at this ⊢
    rw [this]
    simp [Memory.apply, Memory.SaveIssue]

/-- C6: on every store, `SaveRepository(A, topics)` returns nil, sets
`Repository = A` and `Topics = topics` and empties the six per-repository
collections; saving issues `x1..xn` after it yields `Issues = [x1,..,xn]` in
save order (`[x]` for one issue); and whatever calls follow, a later
`SaveRepository(B)` leaves the six collections empty again. -/
theorem saveRepository_resets_collections (s : Memory) (A B : RepositoryFields)
    (topics topicsB : List String) (owner name : String) (as ls : List String)
    (x : Issue) (xs : List Issue) (ops : List Op) :
    (s.SaveRepository A topics).1 = none ∧
    (s.SaveRepository A topics).2.Repository = some A ∧
    (s.SaveRepository A topics).2.Topics = topics ∧
    (s.SaveRepository A topics).2.repoCollectionsEmpty ∧
    ((s.SaveRepository A topics).2.SaveIssue owner name x as ls).2.Issues = [x] ∧
    ((s.SaveRepository A topics).2.run
      (xs.map (fun x => Op.saveIssue owner name x as ls))).Issues = xs ∧
    ((((s.SaveRepository A topics).2.run
      (xs.map (fun x => Op.saveIssue owner name x as ls))).SaveRepository B topicsB).2.Issues
        = []) ∧
    ((((s.SaveRepository A topics).2.run ops).SaveRepository B topicsB).2.repoCollectionsEmpty) ∧
    (((s.SaveRepository A topics).2.run ops).SaveRepository B topicsB).2.Repository = some B := by
  refine ⟨rfl, rfl, rfl, ⟨rfl, rfl, rfl, rfl, rfl, rfl⟩, rfl, ?_, rfl, ⟨rfl, rfl, rfl, rfl, rfl, rfl⟩, rfl⟩
  rw [Memory.run_saveIssue_issues]
  rfl

theorem Memory.run_users (ops : List Op) (h : ∀ o ∈ ops, o.isSaveOrganization = false)
    (s : Memory) : (s.run ops).Users = s.Users ++ savedUsers ops := by
  induction ops generalizing s with
  | nil => simp [Memory.run, savedUsers]
  | cons o ops ih =>
    have ho : o.isSaveOrganization = false := h o (List.mem_cons_self _ _)
    have ih' := ih (fun o' ho' => h o' (List.mem_cons_of_mem _ ho')) (s.apply o)
    simp only [Memory.run, List.foldl_cons] at ih' ⊢
    rw [ih']
    cases o <;> simp_all [Memory.apply, savedUsers, Op.isSaveOrganization, Memory.SaveUser,
      Memory.SaveRepository, Memory.SaveIssue, Memory.SaveIssueComment, Memory.SavePullRequest,
      Memory.SavePullRequestComment, Memory.SavePullRequestReview,
      Memory.SavePullRequestReviewComment, Memory.Version, Memory.SetActiveVersion,
      Memory.Cleanup]

/-- C7: on every store, `SaveOrganization(org)` returns nil, sets
`Organization = org` and empties `Users`; `SaveUser(orgID, orgLogin, u)` returns
nil and appends exactly `u` at the end of `Users`; after `SaveOrganization(org)`
and any further calls among which there is no other `SaveOrganization`, `Users`
is the list of the users handed to `SaveUser`, in call order; and neither of the
two operations changes `Repository`, `Topics` or one of the six per-repository
collections. -/
theorem saveOrganization_saveUser_users (s : Memory) (org : Organization) (orgID : Int)
    (orgLogin : String) (u : UserExtended) (ops : List Op)
    (hops : ∀ o ∈ ops, o.isSaveOrganization = false) :
    (s.SaveOrganization org).1 = none ∧
    (s.SaveOrganization org).2.Organization = some org ∧
    (s.SaveOrganization org).2.Users = [] ∧
    (s.SaveUser orgID orgLogin u).1 = none ∧
    (s.SaveUser orgID orgLogin u).2.Users = s.Users ++ [u] ∧
    ((s.SaveOrganization org).2.run ops).Users = savedUsers ops ∧
    (∀ t : Memory, t = (s.SaveOrganization org).2 ∨ t = (s.SaveUser orgID orgLogin u).2 →
      t.Repository = s.Repository ∧ t.Topics = s.Topics ∧ t.Issues = s.Issues ∧
      t.IssueComments = s.IssueComments ∧ t.PRs = s.PRs ∧ t.PRComments = s.PRComments ∧
      t.PRReviews = s.PRReviews ∧ t.PRReviewComments = s.PRReviewComments) := by
  refine ⟨rfl, rfl, rfl, rfl, rfl, ?_, ?_⟩
  · rw [Memory.run_users ops hops]; rfl
  · rintro t (rfl | rfl) <;> exact ⟨rfl, rfl, rfl, rfl, rfl, rfl, rfl, rfl⟩

/-- C7, at a concrete run: after `SaveOrganization(acme)`, two `SaveUser` calls
with a `SaveRepository` and a `SaveIssue` between them leave `Users = [ann, bob]`. -/
theorem saveOrganization_saveUser_users_witness :
    (∀ o ∈ [Op.saveUser 1 "acme" ⟨"ann"⟩, Op.saveRepository ⟨"acme", "site"⟩ ["go"],
            Op.saveIssue "acme" "site" ⟨7, "bug"⟩ [] [], Op.saveUser 1 "acme" ⟨"bob"⟩],
        o.isSaveOrganization = false) ∧
    (((Memory.zero.SaveOrganization ⟨"acme"⟩).2.run
        [Op.saveUser 1 "acme" ⟨"ann"⟩, Op.saveRepository ⟨"acme", "site"⟩ ["go"],
          Op.saveIssue "acme" "site" ⟨7, "bug"⟩ [] [], Op.saveUser 1 "acme" ⟨"bob"⟩]).Users
      = [⟨"ann"⟩, ⟨"bob"⟩]) :=
  ⟨by decide, (saveOrganization_saveUser_users Memory.zero ⟨"acme"⟩ 1 "acme" ⟨"ann"⟩ _
      (by decide)).2.2.2.2.2.1⟩

theorem writeUnderVersions_issues (rows : List (Int × Issue)) (s : Memory) :
    (writeUnderVersions s rows).Issues = s.Issues ++ rows.map (fun r => r.2) := by
  induction rows generalizing s with
  | nil => simp [writeUnderVersions]
  | cons r rows ih =>
    have := ih ((s.Version r.1).SaveIssue "owner" "repo" r.2 [] []).2
    simp only [writeUnderVersions, List.foldl_cons] at this ⊢
    rw [this]
    simp [Memory.SaveIssue, Memory.Version]

/-- C8 (as amended): for the `Memory` store, `Cleanup(v)` returns nil and
leaves the store as it is, as do `Version(v)` and `SetActiveVersion(v)`; so
after issues have been written under any versions, `Cleanup(v)` keeps every one
of them, those of version `v` and those of the other versions alike. -/
theorem cleanup_is_noop (s : Memory) (v : Int) (rows : List (Int × Issue)) :
    s.Cleanup v = (none, s) ∧ s.Version v = s ∧ s.SetActiveVersion v = (none, s) ∧
    ((writeUnderVersions s rows).Cleanup v).2.Issues = s.Issues ++ rows.map (fun r => r.2) := by
  refine ⟨rfl, rfl, rfl, ?_⟩
  show (writeUnderVersions s rows).Issues = _
  exact writeUnderVersions_issues rows s

/-- C8 fails as stated: after one issue has been written under each of the
versions 1, 2 and 3, `Cleanup(3)` leaves all three issues in the store, not only
the one of version 3. -/
theorem cleanup_keeps_stale_rows :
    ((writeUnderVersions Memory.zero
        [(1, ⟨1, "one"⟩), (2, ⟨2, "two"⟩), (3, ⟨3, "three"⟩)]).Cleanup 3).2.Issues
      = [⟨1, "one"⟩, ⟨2, "two"⟩, ⟨3, "three"⟩] ∧
    ((writeUnderVersions Memory.zero
        [(1, ⟨1, "one"⟩), (2, ⟨2, "two"⟩), (3, ⟨3, "three"⟩)]).Cleanup 3).2.Issues
      ≠ rowsOfVersion [(1, ⟨1, "one"⟩), (2, ⟨2, "two"⟩), (3, ⟨3, "three"⟩)] 3 := by
  decide

end Testutils

namespace Cmd

/-! ## `ExecuteBody`: the run lifecycle -/

theorem buildLoop_calls (env : Env) (ts : List String) (n : Nat) :
    ∀ x ∈ (buildLoop env ts n).2, x.isPrelude = true := by
  induction ts generalizing n with
  | nil => simp [buildLoop, Call.isPrelude]
  | cons t ts ih =>
    intro x hx
    unfold buildLoop at hx
    split at hx
    · simp at hx; subst hx; rfl
    · simp at hx
      rcases hx with rfl | hx
      · rfl
      · exact ih _ x hx

theorem executeWithStorer_lifecycle (c : DownloaderCmd) (env : Env) :
    ∃ pre post, (c.executeWithStorer env).2 = pre ++ post ∧ (∀ x ∈ pre, x.isPrelude = true) ∧
      Lifecycle c env (c.executeWithStorer env).1 post := by
  have hb : ∀ x ∈ (c.buildDownloadersPool env).2, x.isPrelude = true :=
    buildLoop_calls env c.Tokens 0
  unfold DownloaderCmd.executeWithStorer Lifecycle
  generalize c.buildDownloadersPool env = pool at hb
  obtain ⟨pe, pc⟩ := pool
  cases pe with
  | some e => exact ⟨pc, [], by simp, hb, Or.inl ⟨rfl, by simp⟩⟩
  | none =>
    refine ⟨pc, ?_⟩
    cases hbg : env.poolBegin with
    | some e => exact ⟨[.poolBegin], by simp, hb, Or.inr (Or.inl ⟨e, rfl, rfl, by simp⟩)⟩
    | none =>
      cases hbd : env.body with
      | some e =>
        exact ⟨[.poolBegin, .body], by simp, hb, Or.inr (Or.inr (Or.inl ⟨e, rfl, rfl, rfl, by simp⟩))⟩
      | none =>
        cases hnd : env.newDownloader none with
        | some e =>
          exact ⟨_, by simp, hb, Or.inr (Or.inr (Or.inr ⟨rfl, rfl, Or.inl ⟨rfl, by simp⟩⟩))⟩
        | none =>
          cases hsc : env.setCurrent c.Version with
          | some e =>
            refine ⟨[.poolBegin, .body, .poolEnd, .newDownloader none, .setCurrent c.Version],
              by simp [DownloaderCmd.commit, hsc], hb,
              Or.inr (Or.inr (Or.inr ⟨rfl, rfl, Or.inr (Or.inl ⟨e, rfl, rfl, ?_⟩)⟩))⟩
            simp [DownloaderCmd.commit, hsc]
          | none =>
            cases hcl : c.Cleanup with
            | false =>
              refine ⟨[.poolBegin, .body, .poolEnd, .newDownloader none, .setCurrent c.Version],
                by simp [DownloaderCmd.commit, hsc, hcl], hb,
                Or.inr (Or.inr (Or.inr ⟨rfl, rfl, Or.inr (Or.inr (Or.inl ⟨rfl, rfl, rfl, ?_⟩))⟩))⟩
              simp [DownloaderCmd.commit, hsc, hcl]
            | true =>
              refine ⟨[.poolBegin, .body, .poolEnd, .newDownloader none, .setCurrent c.Version,
                  .cleanup c.Version],
                by simp [DownloaderCmd.commit, hsc, hcl], hb,
                Or.inr (Or.inr (Or.inr ⟨rfl, rfl, Or.inr (Or.inr (Or.inr ⟨rfl, rfl, rfl, ?_⟩))⟩))⟩
              simp [DownloaderCmd.commit, hsc, hcl]

theorem executeBody_shape (c : DownloaderCmd) (env : Env) :
    ∃ pre post z, (c.ExecuteBody env).2 = pre ++ post ++ z ∧
      (∀ x ∈ pre, x.isPrelude = true) ∧ (∀ x ∈ z, x = Call.dbClose) ∧
      Lifecycle c env (c.ExecuteBody env).1 post := by
  obtain ⟨pre, post, h1, h2, h3⟩ := executeWithStorer_lifecycle c env
  unfold DownloaderCmd.ExecuteBody
  split
  · exact ⟨pre, post, [], by simp [h1], h2, by simp, h3⟩
  · cases ho : env.sqlOpen with
    | some e => exact ⟨[.sqlOpen], [], [], by simp, by simp [Call.isPrelude], by simp,
        Or.inl ⟨rfl, by simp⟩⟩
    | none =>
      cases hp : env.dbPing with
      | some e => exact ⟨[.sqlOpen, .dbPing], [], [.dbClose], by simp,
          by simp [Call.isPrelude], by simp, Or.inl ⟨rfl, by simp⟩⟩
      | none =>
        cases hm : env.migrate with
        | some e => exact ⟨[.sqlOpen, .dbPing, .migrate], [], [.dbClose], by simp,
            by simp [Call.isPrelude], by simp, Or.inl ⟨rfl, by simp⟩⟩
        | none =>
          refine ⟨[.sqlOpen, .dbPing, .migrate] ++ pre, post, [.dbClose], by simp [h1], ?_,
            by simp, h3⟩
          intro x hx
          simp at hx
          rcases hx with rfl | rfl | rfl | hx
          · rfl
          · rfl
          · rfl
          · exact h2 x hx

theorem buildLoop_poolEnd (env : Env) (e : Option String) (ts : List String) (n : Nat) :
    buildLoop { env with poolEnd := e } ts n = buildLoop env ts n := by
  induction ts generalizing n with
  | nil => rfl
  | cons t ts ih => simp only [buildLoop, ih]

/-- What `downloadersPool.End` returns has no effect on `ExecuteBody`: neither on
the error it returns nor on the calls it makes. -/
theorem executeBody_ignores_end_error (c : DownloaderCmd) (env : Env) (e : Option String) :
    c.ExecuteBody { env with poolEnd := e } = c.ExecuteBody env := by
  simp only [DownloaderCmd.ExecuteBody, DownloaderCmd.executeWithStorer,
    DownloaderCmd.buildDownloadersPool, buildLoop_poolEnd, DownloaderCmd.commit]

/-- The errors that `ExecuteBody` does hand on: that of the pool construction
(once the storer is set up) and that of `SetCurrent`; those of `Begin` and of
the body are covered with the lifecycle. -/
theorem executeBody_hands_on (c : DownloaderCmd) (env : Env) (e : String) :
    ((c.buildDownloadersPool env).1 = some e → (c.executeWithStorer env).1 = some e) ∧
    (.setCurrent c.Version ∈ (c.ExecuteBody env).2 → env.setCurrent c.Version = some e →
      (c.ExecuteBody env).1 = some e) := by
  refine ⟨fun h => ?_, fun hmem hs => ?_⟩
  · simp only [DownloaderCmd.executeWithStorer, h]
  · obtain ⟨pre, post, z, htr, hpre, hz, hl⟩ := executeBody_shape c env
    rw [htr] at hmem
    have p1 : Call.setCurrent c.Version ∉ pre := fun h => by
      simpa [Call.isPrelude] using hpre _ h
    have z1 : Call.setCurrent c.Version ∉ z := fun h => by simpa using hz _ h
    unfold Lifecycle at hl
    rcases hl with ⟨rfl, _⟩ | ⟨_, rfl, _, _⟩ | ⟨_, rfl, _, _, _⟩ | ⟨_, _, hl⟩
    · simp [p1, z1] at hmem
    · simp [p1, z1] at hmem
    · simp [p1, z1] at hmem
    · rcases hl with ⟨rfl, _⟩ | ⟨e', _, hs', he⟩ | ⟨_, hs', _, _⟩ | ⟨_, hs', _, _⟩
      · simp [p1, z1] at hmem
      · rw [hs] at hs'; cases hs'; exact he
      · rw [hs] at hs'; cases hs'
      · rw [hs] at hs'; cases hs'

/-- C9: in every run of `ExecuteBody` with configured version `v`:
`SetCurrent` and `Cleanup` are each called at most once; `SetCurrent` is called
only with `v`, only when `Begin` and the body returned nil, and after `Begin`,
the body and `End`; when `Begin` or the body is called and fails, `ExecuteBody`
returns that error and calls neither `End`, `SetCurrent` nor `Cleanup`;
`Cleanup` is called only with `v`, only when the cleanup flag is set and
`SetCurrent(v)` returned nil, and after it; the error of `Cleanup` is what
`ExecuteBody` returns, and no call follows `Cleanup` but the deferred
`db.Close()`. -/
theorem executeBody_lifecycle (c : DownloaderCmd) (env : Env) :
    (∀ v, (c.ExecuteBody env).2.count (.setCurrent v) ≤ 1 ∧
          (c.ExecuteBody env).2.count (.cleanup v) ≤ 1) ∧
    (∀ v, .setCurrent v ∈ (c.ExecuteBody env).2 →
        v = c.Version ∧ env.poolBegin = none ∧ env.body = none ∧
        calledBefore .poolBegin (.setCurrent v) (c.ExecuteBody env).2 ∧
        calledBefore .body (.setCurrent v) (c.ExecuteBody env).2 ∧
        calledBefore .poolEnd (.setCurrent v) (c.ExecuteBody env).2) ∧
    (∀ e, .poolBegin ∈ (c.ExecuteBody env).2 → env.poolBegin = some e →
        (c.ExecuteBody env).1 = some e ∧ .poolEnd ∉ (c.ExecuteBody env).2 ∧
        ∀ v, .setCurrent v ∉ (c.ExecuteBody env).2 ∧ .cleanup v ∉ (c.ExecuteBody env).2) ∧
    (∀ e, .body ∈ (c.ExecuteBody env).2 → env.body = some e →
        (c.ExecuteBody env).1 = some e ∧ .poolEnd ∉ (c.ExecuteBody env).2 ∧
        ∀ v, .setCurrent v ∉ (c.ExecuteBody env).2 ∧ .cleanup v ∉ (c.ExecuteBody env).2) ∧
    (∀ v, .cleanup v ∈ (c.ExecuteBody env).2 →
        v = c.Version ∧ c.Cleanup = true ∧ env.setCurrent v = none ∧
        calledBefore (.setCurrent v) (.cleanup v) (c.ExecuteBody env).2 ∧
        (c.ExecuteBody env).1 = env.cleanup v ∧
        ∃ pre post, (c.ExecuteBody env).2 = pre ++ .cleanup v :: post ∧
          ∀ x ∈ post, x = Call.dbClose) := by
  obtain ⟨pre, post, z, htr, hpre, hz, hl⟩ := executeBody_shape c env
  generalize (c.ExecuteBody env).2 = tr at htr
  generalize (c.ExecuteBody env).1 = err at hl
  subst htr
  have p1 : ∀ v, Call.setCurrent v ∉ pre := fun v h => by simpa [Call.isPrelude] using hpre _ h
  have p2 : ∀ v, Call.cleanup v ∉ pre := fun v h => by simpa [Call.isPrelude] using hpre _ h
  have p3 : Call.poolBegin ∉ pre := fun h => by simpa [Call.isPrelude] using hpre _ h
  have p4 : Call.body ∉ pre := fun h => by simpa [Call.isPrelude] using hpre _ h
  have p5 : Call.poolEnd ∉ pre := fun h => by simpa [Call.isPrelude] using hpre _ h
  have z1 : ∀ v, Call.setCurrent v ∉ z := fun v h => by simpa using hz _ h
  have z2 : ∀ v, Call.cleanup v ∉ z := fun v h => by simpa using hz _ h
  have z3 : Call.poolBegin ∉ z := fun h => by simpa using hz _ h
  have z4 : Call.body ∉ z := fun h => by simpa using hz _ h
  have z5 : Call.poolEnd ∉ z := fun h => by simpa using hz _ h
  have c1 : ∀ v, pre.count (Call.setCurrent v) = 0 := fun v => List.count_eq_zero_of_not_mem (p1 v)
  have c2 : ∀ v, pre.count (Call.cleanup v) = 0 := fun v => List.count_eq_zero_of_not_mem (p2 v)
  have c3 : ∀ v, z.count (Call.setCurrent v) = 0 := fun v => List.count_eq_zero_of_not_mem (z1 v)
  have c4 : ∀ v, z.count (Call.cleanup v) = 0 := fun v => List.count_eq_zero_of_not_mem (z2 v)
  unfold Lifecycle at hl
  rcases hl with ⟨rfl, he⟩ | ⟨e, rfl, hb, he⟩ | ⟨e, rfl, hb, hbd, he⟩ | ⟨hb, hbd, hl⟩
  · simp [*]
  · simp [*]
  · simp [*]
  · rcases hl with ⟨rfl, he⟩ | ⟨e, rfl, hs, he⟩ | ⟨rfl, hs, hc, he⟩ | ⟨rfl, hs, hc, he⟩
    · simp [*]
    · have k1 : ∀ a ∈ [Call.poolBegin, .body, .poolEnd],
          calledBefore a (.setCurrent c.Version)
            (pre ++ [.poolBegin, .body, .poolEnd, .newDownloader none, .setCurrent c.Version] ++ z) :=
        fun a ha => ⟨pre ++ [.poolBegin, .body, .poolEnd, .newDownloader none], z, by simp,
          by simp at ha; rcases ha with rfl | rfl | rfl <;> simp⟩
      have k2 := k1 .poolBegin (by simp)
      have k3 := k1 .body (by simp)
      have k4 := k1 .poolEnd (by simp)
      refine ⟨fun v => ?_, fun v hv => ?_, ?_, ?_, ?_⟩
      · simp [*, List.count_cons]; split <;> simp
      · have : v = c.Version := by simpa [*] using hv
        subst this
        exact ⟨rfl, hb, hbd, k2, k3, k4⟩
      · simp [*]
      · simp [*]
      · simp [*]
    · have k1 : ∀ a ∈ [Call.poolBegin, .body, .poolEnd],
          calledBefore a (.setCurrent c.Version)
            (pre ++ [.poolBegin, .body, .poolEnd, .newDownloader none, .setCurrent c.Version] ++ z) :=
        fun a ha => ⟨pre ++ [.poolBegin, .body, .poolEnd, .newDownloader none], z, by simp,
          by simp at ha; rcases ha with rfl | rfl | rfl <;> simp⟩
      have k2 := k1 .poolBegin (by simp)
      have k3 := k1 .body (by simp)
      have k4 := k1 .poolEnd (by simp)
      refine ⟨fun v => ?_, fun v hv => ?_, ?_, ?_, ?_⟩
      · simp [*, List.count_cons]; split <;> simp
      · have : v = c.Version := by simpa [*] using hv
        subst this
        exact ⟨rfl, hb, hbd, k2, k3, k4⟩
      · simp [*]
      · simp [*]
      · simp [*]
    · have k1 : ∀ a ∈ [Call.poolBegin, .body, .poolEnd],
          calledBefore a (.setCurrent c.Version)
            (pre ++ [.poolBegin, .body, .poolEnd, .newDownloader none, .setCurrent c.Version,
              .cleanup c.Version] ++ z) :=
        fun a ha => ⟨pre ++ [.poolBegin, .body, .poolEnd, .newDownloader none],
          .cleanup c.Version :: z, by simp,
          by simp at ha; rcases ha with rfl | rfl | rfl <;> simp⟩
      have k2 := k1 .poolBegin (by simp)
      have k3 := k1 .body (by simp)
      have k4 := k1 .poolEnd (by simp)
      have k5 : calledBefore (.setCurrent c.Version) (.cleanup c.Version)
            (pre ++ [.poolBegin, .body, .poolEnd, .newDownloader none, .setCurrent c.Version,
              .cleanup c.Version] ++ z) :=
        ⟨pre ++ [.poolBegin, .body, .poolEnd, .newDownloader none, .setCurrent c.Version], z,
          by simp, by simp⟩
      refine ⟨fun v => ?_, fun v hv => ?_, ?_, ?_, fun v hv => ?_⟩
      · simp [*, List.count_cons]; split <;> simp
      · have : v = c.Version := by simpa [*] using hv
        subst this
        exact ⟨rfl, hb, hbd, k2, k3, k4⟩
      · simp [*]
      · simp [*]
      · have : v = c.Version := by simpa [*] using hv
        subst this
        exact ⟨rfl, hc, hs, k5, he, pre ++ [.poolBegin, .body, .poolEnd, .newDownloader none,
          .setCurrent c.Version], z, by simp, hz⟩

/-- C4 fails on the code: with a store on stdout and one token, when `Begin`
and the body succeed and `downloadersPool.End` returns the error
`commit failed`, `ExecuteBody` goes on to `SetCurrent` and returns nil. -/
theorem executeBody_drops_end_error :
    envEndFails.poolBegin = none ∧ envEndFails.body = none ∧
    envEndFails.poolEnd = some "commit failed" ∧
    cmdStdout.ExecuteBody envEndFails =
      (none, [.newDownloader (some "t1"), .newDownloadersPool 1, .poolBegin, .body, .poolEnd,
              .newDownloader none, .setCurrent 3]) := by
  decide

end Cmd

namespace Ghsync

/-! ## `downloadParallel`: the step relation and the step function agree -/

theorem trans_of_step {cfg : Config} {s s' : State} {a : Action}
    (h : step cfg s a = some s') : Trans cfg s a s' := by
  cases a with
  | main =>
    simp only [step, stepMain] at h
    split at h
    · next i hm =>
      split at h
      · next p hp => cases h; exact .spawn i p hm hp
      · next hp => cases h; exact .loopEnd i hm hp
    · next i hm =>
      split at h
      · next hc => cases h; exact .leave i hm hc
      · next hc => cases h; exact .next i hm (by simpa using hc)
    · next hm =>
      split at h
      · next hw => cases h; exact .join hm hw
      · cases h
    · next hm =>
      split at h
      · next e rest he => cases h; exact .selectErr e rest hm he
      · next he => cases h; exact .selectNone hm he
    · cases h
  | acquire i d =>
    simp only [step, stepAcquire] at h
    split at h
    · next hu hb => cases h; exact .acquire i d hu hb
    · cases h
  | unit i =>
    simp only [step, stepUnit] at h
    split at h
    · next d hu =>
      split at h
      · next p hp => cases h; exact .jobReturn i d p hu hp
      · cases h
    · next d err hu => cases h; exact .release i d err hu
    · next err hu =>
      split at h
      · next hc => cases h; exact .stopped i err hu hc
      · next hc =>
        split at h
        · next e => cases h; exact .failed i e hu (by simpa using hc)
        · cases h; exact .finished i hu (by simpa using hc)
    · next msg hu =>
      split at h
      · next hlen => cases h; exact .send i msg hu hlen
      · cases h
    · next hu => cases h; exact .cancel i hu
    · next hu => cases h; exact .exit i hu
    · cases h

theorem step_of_trans {cfg : Config} {s s' : State} {a : Action}
    (h : Trans cfg s a s') : step cfg s a = some s' := by
  cases h <;> simp [step, stepMain, stepAcquire, stepUnit, stepRelease, *]

/-! ## `downloadParallel`: counting over the goroutines -/

theorem sum_map_set {α : Type} (f : α → Nat) (v : α) :
    ∀ (l : List α) (i : Nat) (u : α), l[i]? = some u →
      ((l.set i v).map f).sum + f u = (l.map f).sum + f v
  | [], i, u, h => by simp at h
  | x :: l, 0, u, h => by
    simp at h; subst h
    simp only [List.set, List.map_cons, List.sum_cons]; omega
  | x :: l, i + 1, u, h => by
    simp at h
    have := sum_map_set f v l i u h
    simp only [List.set, List.map_cons, List.sum_cons]; omega

theorem le_sum_map {α : Type} (f : α → Nat) :
    ∀ (l : List α) (i : Nat) (u : α), l[i]? = some u → f u ≤ (l.map f).sum
  | [], i, u, h => by simp at h
  | x :: l, 0, u, h => by simp at h; subst h; simp
  | x :: l, i + 1, u, h => by
    simp at h
    have := le_sum_map f l i u h
    simp; omega

theorem sum_map_le_mul {α : Type} (f : α → Nat) (b : Nat) (hf : ∀ u, f u ≤ b) :
    ∀ l : List α, (l.map f).sum ≤ b * l.length
  | [] => by simp
  | x :: l => by
    have := sum_map_le_mul f b hf l
    have := hf x
    simp [Nat.mul_succ]; omega

theorem all_done_of_live_zero (l : List UnitPc) (h : (l.map UnitPc.live).sum = 0) :
    ∀ u ∈ l, u = .done := by
  intro u hu
  obtain ⟨i, hi⟩ := List.mem_iff_getElem?.1 hu
  have := le_sum_map UnitPc.live l i u hi
  cases u <;> simp_all [UnitPc.live]

theorem sum_invoked_of_all_done (l : List UnitPc) (h : ∀ u ∈ l, u = .done) :
    (l.map UnitPc.invoked).sum = l.length := by
  induction l with
  | nil => rfl
  | cons x l ih =>
    have hx : x = .done := h x (List.mem_cons_self _ _)
    have := ih (fun u hu => h u (List.mem_cons_of_mem _ hu))
    subst hx
    simp [UnitPc.invoked, this]; omega

/-- A holder of `d` stays one when another goroutine moves. -/
theorem holder_set_of_ne (l : List UnitPc) (i : Nat) (u0 v : UnitPc) (d : Nat)
    (h0 : l[i]? = some u0) (hn : u0.holds d = false)
    (h : ∃ (j : Nat) (u : UnitPc), l[j]? = some u ∧ u.holds d = true) :
    ∃ (j : Nat) (u : UnitPc), (l.set i v)[j]? = some u ∧ u.holds d = true := by
  obtain ⟨j, u, hj, hu⟩ := h
  have hij : i ≠ j := by
    rintro rfl
    rw [h0] at hj; cases hj
    rw [hn] at hu; cases hu
  exact ⟨j, u, by rw [List.getElem?_set_ne hij]; exact hj, hu⟩

theorem getElem?_set_self_of_some {α : Type} (l : List α) (i : Nat) (u v : α)
    (h : l[i]? = some u) : (l.set i v)[i]? = some v := by
  have : i < l.length := by
    by_contra hc
    rw [List.getElem?_eq_none (by omega)] at h; cases h
  exact List.getElem?_set_self this

/-! ## `downloadParallel`: the bookkeeping invariant holds in every reachable state -/

theorem inv_init (cfg : Config) : Inv cfg (init cfg) where
  len := by simp [init]
  atSpawn := by intro i h; simp [init] at h ⊢; omega
  atCheck := by intro i h; simp [init] at h
  wg := by simp [init]
  joined := by simp [init, State.isReturned]
  busyLen := by simp [init]
  held := by
    intro d h
    simp [init, List.getElem?_replicate] at h
  callsLen := by simp [init]
  callsCount := by simp [init]

theorem lt_length_of_getElem? {α : Type} {l : List α} {i : Nat} {u : α} (h : l[i]? = some u) :
    i < l.length := by
  by_contra hc
  rw [List.getElem?_eq_none (by omega)] at h; cases h

/-- The invariant survives a change of the main program counter that starts
no goroutine and is not a return. -/
theorem inv_main {cfg : Config} {s s' : State} (hi : Inv cfg s)
    (hunits : s'.units = s.units) (hwg : s'.wg = s.wg) (hbusy : s'.busy = s.busy)
    (hcalls : s'.calls = s.calls)
    (hS : ∀ i, s'.main = .spawn i → s.units.length = i)
    (hC : ∀ i, s'.main = .check i → s.units.length = i + 1)
    (hJ : s'.main = .select ∨ s'.isReturned = true → s.wg = 0) : Inv cfg s' := by
  obtain ⟨len, atSpawn, atCheck, wg, joined, busyLen, held, callsLen, callsCount⟩ := hi
  refine ⟨?_, ?_, ?_, ?_, ?_, ?_, ?_, ?_, ?_⟩
  · rw [hunits]; exact len
  · rw [hunits]; exact hS
  · rw [hunits]; exact hC
  · rw [hunits, hwg]; exact wg
  · rw [hwg]; exact hJ
  · rw [hbusy]; exact busyLen
  · rw [hunits, hbusy]; exact held
  · rw [hunits, hcalls]; exact callsLen
  · rw [hunits, hcalls]; exact callsCount

/-- A goroutine that can move has not run `wg.Done()`, so `wg` is not zero. -/
theorem wg_pos_of_live {cfg : Config} {s : State} (hi : Inv cfg s) {i : Nat} {u : UnitPc}
    (hu : s.units[i]? = some u) (hl : u.live = 1) : 0 < s.wg := by
  have := le_sum_map UnitPc.live s.units i u hu
  rw [hi.wg]; omega

/-- The invariant survives a step of goroutine `i` from `u` to `v`, given how
the step changes `wg`, the pool and the history of calls. -/
theorem inv_unit {cfg : Config} {s s' : State} (hi : Inv cfg s) {i : Nat} {u : UnitPc}
    (hu : s.units[i]? = some u) (v : UnitPc) (hlive : u.live = 1)
    (hmain : s'.main = s.main) (hunits : s'.units = s.units.set i v)
    (hwg : s'.wg + u.live = s.wg + v.live)
    (hbusyLen : s'.busy.length = s.busy.length)
    (hheld : ∀ d, s'.busy[d]? = some true →
      v.holds d = true ∨ (u.holds d = false ∧ s.busy[d]? = some true))
    (hcallsLen : s'.calls.length + u.invoked = s.calls.length + v.invoked)
    (hcalls : ∀ j, s'.calls.count j =
      if j = i then s.calls.count j + v.invoked - u.invoked else s.calls.count j) :
    Inv cfg s' := by
  have hpos := wg_pos_of_live hi hu hlive
  obtain ⟨len, atSpawn, atCheck, wg, joined, busyLen, held, callsLen, callsCount⟩ := hi
  have hlt := lt_length_of_getElem? hu
  refine ⟨?_, ?_, ?_, ?_, ?_, ?_, ?_, ?_, ?_⟩
  · rw [hunits, List.length_set]; exact len
  · rw [hunits, List.length_set, hmain]; exact atSpawn
  · rw [hunits, List.length_set, hmain]; exact atCheck
  · have := sum_map_set UnitPc.live v s.units i u hu
    rw [hunits]; omega
  · intro h
    have h' : s.main = .select ∨ s.isReturned = true := by
      simpa [State.isReturned, hmain] using h
    have := joined h'
    omega
  · rw [hbusyLen]; exact busyLen
  · intro d hd
    rcases hheld d hd with hv | ⟨hn, hb⟩
    · exact ⟨i, v, by rw [hunits]; exact List.getElem?_set_self hlt, hv⟩
    · rw [hunits]; exact holder_set_of_ne s.units i u v d hu hn (held d hb)
  · have := sum_map_set UnitPc.invoked v s.units i u hu
    rw [hunits]; omega
  · intro j
    rw [hcalls j, hunits]
    by_cases hj : j = i
    · subst hj
      rw [if_pos rfl, List.getElem?_set_self hlt, callsCount j, hu]
      simp
    · rw [if_neg hj, List.getElem?_set_ne (Ne.symm hj), callsCount j]

theorem inv_trans {cfg : Config} {s s' : State} {a : Action} (hi : Inv cfg s)
    (h : Trans cfg s a s') : Inv cfg s' := by
  cases h with
  | spawn i p hm hp =>
    obtain ⟨len, atSpawn, atCheck, wg, joined, busyLen, held, callsLen, callsCount⟩ := hi
    have hl := atSpawn i hm
    have hi : i < cfg.params.length := lt_length_of_getElem? hp
    refine ⟨?_, ?_, ?_, ?_, ?_, ?_, ?_, ?_, ?_⟩
    · simp; omega
    · simp
    · simp; omega
    · simp [wg, UnitPc.live]
    · simp [State.isReturned]
    · simpa using busyLen
    · intro d hd
      obtain ⟨j, u, hj, hu⟩ := held d hd
      exact ⟨j, u, by
        show (s.units ++ [UnitPc.acquire])[j]? = some u
        rw [List.getElem?_append_left (lt_length_of_getElem? hj)]; exact hj, hu⟩
    · simp [callsLen, UnitPc.invoked]
    · intro j
      show s.calls.count j = (((s.units ++ [UnitPc.acquire])[j]?).map UnitPc.invoked).getD 0
      rw [callsCount j, List.getElem?_append]
      split
      · rfl
      · next hlt =>
        rw [List.getElem?_eq_none (by omega)]
        cases hj : [UnitPc.acquire][j - s.units.length]? with
        | none => rfl
        | some u =>
          have := List.getElem?_mem hj
          simp at this; subst this; rfl
  | loopEnd i hm hp =>
    exact inv_main hi rfl rfl rfl rfl (by simp) (by simp) (by simp [State.isReturned])
  | leave i hm hc =>
    exact inv_main hi rfl rfl rfl rfl (by simp) (by simp) (by simp [State.isReturned])
  | next i hm hc =>
    have := hi.atCheck i hm
    exact inv_main hi rfl rfl rfl rfl (by simpa using this) (by simp)
      (by simp [State.isReturned])
  | join hm hw =>
    exact inv_main hi rfl rfl rfl rfl (by simp) (by simp) (fun _ => hw)
  | selectErr e rest hm he =>
    exact inv_main hi rfl rfl rfl rfl (by simp) (by simp) (fun _ => hi.joined (Or.inl hm))
  | selectNone hm he =>
    exact inv_main hi rfl rfl rfl rfl (by simp) (by simp) (fun _ => hi.joined (Or.inl hm))
  | acquire i d hu hb =>
    refine inv_unit hi hu (.running d) rfl rfl rfl rfl (by simp) ?_ (by simp [UnitPc.invoked])
      ?_
    · intro d' hd'
      by_cases hdd : d = d'
      · exact Or.inl (by simp [UnitPc.holds, hdd])
      · refine Or.inr ⟨rfl, ?_⟩
        simpa [List.getElem?_set_ne hdd] using hd'
    · intro j
      simp [UnitPc.invoked, List.count_append, List.count_singleton]
      by_cases hj : j = i
      · simp [hj]
      · simp [hj, Ne.symm hj]
  | jobReturn i d p hu hp =>
    refine inv_unit hi hu _ rfl rfl rfl rfl rfl
      (fun d' hd' => ?_) rfl (fun j => by simp [UnitPc.invoked])
    by_cases hdd : d = d'
    · exact Or.inl (by simp [UnitPc.holds, hdd])
    · exact Or.inr ⟨by simp [UnitPc.holds, hdd], hd'⟩
  | release i d err hu =>
    refine inv_unit hi hu _ rfl rfl rfl rfl (by simp)
      (fun d' hd' => ?_) rfl (fun j => by simp [UnitPc.invoked])
    by_cases hdd : d = d'
    · subst hdd
      have hlt : d < s.busy.length := by
        by_contra hc
        have : (s.busy.set d false)[d]? = none := List.getElem?_eq_none (by simp; omega)
        simp [this] at hd'
      simp [List.getElem?_set_self hlt] at hd'
    · exact Or.inr ⟨by simp [UnitPc.holds, hdd], by simpa [List.getElem?_set_ne hdd] using hd'⟩
  | stopped i err hu hc =>
    exact inv_unit hi hu _ rfl rfl rfl rfl rfl (fun d' hd' => Or.inr ⟨rfl, hd'⟩) rfl
      (fun j => by simp [UnitPc.invoked])
  | failed i e hu hc =>
    exact inv_unit hi hu _ rfl rfl rfl rfl rfl (fun d' hd' => Or.inr ⟨rfl, hd'⟩) rfl
      (fun j => by simp [UnitPc.invoked])
  | finished i hu hc =>
    exact inv_unit hi hu _ rfl rfl rfl rfl rfl (fun d' hd' => Or.inr ⟨rfl, hd'⟩) rfl
      (fun j => by simp [UnitPc.invoked])
  | send i msg hu hlen =>
    exact inv_unit hi hu _ rfl rfl rfl rfl rfl (fun d' hd' => Or.inr ⟨rfl, hd'⟩) rfl
      (fun j => by simp [UnitPc.invoked])
  | cancel i hu =>
    exact inv_unit hi hu _ rfl rfl rfl rfl rfl (fun d' hd' => Or.inr ⟨rfl, hd'⟩) rfl
      (fun j => by simp [UnitPc.invoked])
  | exit i hu =>
    have hpos := wg_pos_of_live hi hu rfl
    refine inv_unit hi hu .done rfl rfl rfl ?_ rfl (fun d' hd' => Or.inr ⟨rfl, hd'⟩) rfl
      (fun j => by simp [UnitPc.invoked])
    simp [UnitPc.live]; omega

/-! ## `downloadParallel`: every schedule is finite -/

theorem progress_lt {cfg : Config} {s s' : State} {a : Action} (hi : Inv cfg s)
    (h : Trans cfg s a s') : s.progress cfg < s'.progress cfg := by
  have key : ∀ (i : Nat) (u v : UnitPc), s.units[i]? = some u → u.rank < v.rank →
      ((s.units.map UnitPc.rank).sum < ((s.units.set i v).map UnitPc.rank).sum) := by
    intro i u v hu huv
    have := sum_map_set UnitPc.rank v s.units i u hu
    omega
  cases h with
  | spawn i p hm hp => simp [State.progress, hm, MainPc.rank, UnitPc.rank]
  | loopEnd i hm hp =>
    have := hi.atSpawn i hm
    have := hi.len
    simp [State.progress, hm, MainPc.rank]; omega
  | leave i hm hc =>
    have := hi.atCheck i hm
    have := hi.len
    simp [State.progress, hm, MainPc.rank]; omega
  | next i hm hc => simp [State.progress, hm, MainPc.rank]; omega
  | join hm hw => simp [State.progress, hm, MainPc.rank]
  | selectErr e rest hm he => simp [State.progress, hm, MainPc.rank]
  | selectNone hm he => simp [State.progress, hm, MainPc.rank]
  | acquire i d hu hb =>
    have := key i _ (.running d) hu (by simp [UnitPc.rank])
    simpa [State.progress] using this
  | jobReturn i d p hu hp =>
    have := key i _ (.release d (cfg.downloadFn s.cancelled d p)) hu (by simp [UnitPc.rank])
    simpa [State.progress] using this
  | release i d err hu =>
    have := key i _ (.checkCtx err) hu (by simp [UnitPc.rank])
    simpa [State.progress] using this
  | stopped i err hu hc =>
    have := key i _ .exit hu (by simp [UnitPc.rank])
    simpa [State.progress] using this
  | failed i e hu hc =>
    have := key i _ (.send (wrapError cfg.resourceType e)) hu (by simp [UnitPc.rank])
    simpa [State.progress] using this
  | finished i hu hc =>
    have := key i _ .exit hu (by simp [UnitPc.rank])
    simpa [State.progress] using this
  | send i msg hu hlen =>
    have := key i _ .cancel hu (by simp [UnitPc.rank])
    simpa [State.progress] using this
  | cancel i hu =>
    have := key i _ .exit hu (by simp [UnitPc.rank])
    simpa [State.progress] using this
  | exit i hu =>
    have := key i _ .done hu (by simp [UnitPc.rank])
    simpa [State.progress] using this

theorem progress_le {cfg : Config} {s : State} (hi : Inv cfg s) :
    s.progress cfg ≤ 9 * cfg.params.length + 3 := by
  have h1 : s.main.rank cfg.params.length ≤ 2 * cfg.params.length + 3 := by
    cases hm : s.main with
    | spawn i => have := hi.atSpawn i hm; have := hi.len; simp [MainPc.rank]; omega
    | check i => have := hi.atCheck i hm; have := hi.len; simp [MainPc.rank]; omega
    | wait => simp [MainPc.rank]
    | select => simp [MainPc.rank]
    | returned r => simp [MainPc.rank]
  have h2 := sum_map_le_mul UnitPc.rank 7 (fun u => by cases u <;> simp [UnitPc.rank]) s.units
  have := hi.len
  unfold State.progress
  omega

/-- Induction over a schedule for a property that every step preserves. -/
theorem exec_preserves {cfg : Config} (P : State → Prop)
    (hstep : ∀ s a s', P s → Trans cfg s a s' → P s') :
    ∀ (sched : List Action) (s s' : State), P s → exec cfg s sched = some s' → P s'
  | [], s, s', hp, h => by simp [exec] at h; subst h; exact hp
  | a :: as, s, s', hp, h => by
    simp only [exec] at h
    split at h
    · next s1 h1 => exact exec_preserves P hstep as s1 s' (hstep s a s1 hp (trans_of_step h1)) h
    · cases h

theorem exec_progress {cfg : Config} :
    ∀ (sched : List Action) (s s' : State), Inv cfg s → exec cfg s sched = some s' →
      s.progress cfg + sched.length ≤ s'.progress cfg
  | [], s, s', _, h => by simp [exec] at h; subst h; simp
  | a :: as, s, s', hi, h => by
    simp only [exec] at h
    split at h
    · next s1 h1 =>
      have ht := trans_of_step h1
      have := exec_progress as s1 s' (inv_trans hi ht) h
      have := progress_lt hi ht
      simp; omega
    · cases h

theorem inv_of_run {cfg : Config} {sched : List Action} {s : State}
    (h : run cfg sched = some s) : Inv cfg s :=
  exec_preserves (Inv cfg) (fun _ _ _ hi ht => inv_trans hi ht) sched _ s (inv_init cfg) h

/-- No schedule of `downloadParallel` is longer than `9 * len(params) + 3`. -/
theorem run_length_le {cfg : Config} {sched : List Action} {s : State}
    (h : run cfg sched = some s) : sched.length ≤ 9 * cfg.params.length + 3 := by
  have h1 := exec_progress sched _ s (inv_init cfg) h
  have h2 := progress_le (inv_of_run h)
  omega

theorem exec_append {cfg : Config} :
    ∀ (as bs : List Action) (s : State),
      exec cfg s (as ++ bs) = (exec cfg s as).bind (fun t => exec cfg t bs)
  | [], bs, s => by simp [exec]
  | a :: as, bs, s => by
    simp only [List.cons_append, exec]
    cases step cfg s a with
    | none => simp
    | some s1 => simpa using exec_append as bs s1

/-- From a state with a preserved property that excludes deadlock, some
schedule runs `downloadParallel` to its return. -/
theorem exists_run_to_return {cfg : Config} (P : State → Prop)
    (hstep : ∀ s a s', P s → Trans cfg s a s' → P s')
    (hinv : ∀ s, P s → Inv cfg s)
    (hlive : ∀ s, P s → s.isReturned = false → ∃ a, (step cfg s a).isSome = true) :
    ∀ (n : Nat) (s : State), P s → 9 * cfg.params.length + 3 ≤ s.progress cfg + n →
      ∃ sched s', exec cfg s sched = some s' ∧ s'.isReturned = true ∧ P s'
  | 0, s, hp, hn => by
    cases hr : s.isReturned with
    | true => exact ⟨[], s, rfl, hr, hp⟩
    | false =>
      obtain ⟨a, ha⟩ := hlive s hp hr
      obtain ⟨s1, h1⟩ := Option.isSome_iff_exists.1 ha
      have := progress_lt (hinv s hp) (trans_of_step h1)
      have := progress_le (hinv s1 (hstep s a s1 hp (trans_of_step h1)))
      omega
  | n + 1, s, hp, hn => by
    cases hr : s.isReturned with
    | true => exact ⟨[], s, rfl, hr, hp⟩
    | false =>
      obtain ⟨a, ha⟩ := hlive s hp hr
      obtain ⟨s1, h1⟩ := Option.isSome_iff_exists.1 ha
      have hlt := progress_lt (hinv s hp) (trans_of_step h1)
      obtain ⟨sched, s', he, hr', hp'⟩ :=
        exists_run_to_return P hstep hinv hlive n s1 (hstep s a s1 hp (trans_of_step h1))
          (by omega)
      exact ⟨a :: sched, s', by simp [exec, h1, he], hr', hp'⟩

/-! ## `downloadParallel` when at most one job can fail -/

theorem invK_init (cfg : Config) (k : Nat) : InvK cfg k (init cfg) where
  clean := by intro j u _ h; simp [init] at h
  errLen := by simp [init]
  cancelledK := by simp [init]
  allSpawned := by simp [init, State.isReturned]

/-- The state of goroutine `k` after a step of goroutine `i`. -/
theorem getElem?_set_k (l : List UnitPc) (i k : Nat) (u v : UnitPc) (hu : l[i]? = some u) :
    (l.set i v)[k]? = if i = k then some v else l[k]? := by
  rw [List.getElem?_set]
  split
  · rw [if_pos (lt_length_of_getElem? hu)]
  · rfl

/-- `InvK` survives a step of the body that starts no goroutine. -/
theorem invK_main {cfg : Config} {k : Nat} {s s' : State} (hk : InvK cfg k s)
    (hunits : s'.units = s.units) (herr : s'.isReturned = false → s'.errCh = s.errCh ∧ s.isReturned = false)
    (hc : s'.cancelled = true → s'.isReturned = true ∨ (s.cancelled = true ∧ s.isReturned = false))
    (hA : s'.main = .wait ∨ s'.main = .select ∨ s'.isReturned = true →
      s.units.length = cfg.params.length ∨ s.units[k]? = some .exit ∨ s.units[k]? = some .done) :
    InvK cfg k s' := by
  refine ⟨?_, ?_, ?_, ?_⟩
  · rw [hunits]; exact hk.clean
  · intro h
    obtain ⟨h1, h2⟩ := herr h
    rw [hunits, h1]; exact hk.errLen h2
  · intro h
    rcases hc h with h | ⟨h1, h2⟩
    · exact Or.inl h
    · rcases hk.cancelledK h1 with h3 | h3
      · rw [h2] at h3; cases h3
      · rw [hunits]; exact Or.inr h3
  · rw [hunits]; exact hA

/-- `InvK` survives a step of goroutine `i` from `u` to `v` that leaves
`errCh` and `ctx` alone. -/
theorem invK_unit {cfg : Config} {k : Nat} {s s' : State} (hk : InvK cfg k s)
    {i : Nat} {u : UnitPc} (hu : s.units[i]? = some u) (v : UnitPc)
    (hmain : s'.main = s.main) (hunits : s'.units = s.units.set i v)
    (hclean : i ≠ k → v.reporting = false)
    (herr : s'.errCh.length + UnitPc.pastSend (some u) ≤ s.errCh.length + UnitPc.pastSend (some v))
    (herrNe : i ≠ k → s'.errCh.length ≤ s.errCh.length)
    (hc : s'.cancelled = true → s.cancelled = true ∨ (i = k ∧ v = .exit))
    (hex : u = .exit → v = .done) (hdone : u ≠ .done) :
    InvK cfg k s' := by
  have hret : s'.isReturned = s.isReturned := by simp [State.isReturned, hmain]
  have hkk := getElem?_set_k s.units i k u v hu
  have hKeep : s.units[k]? = some .exit ∨ s.units[k]? = some .done →
      s'.units[k]? = some .exit ∨ s'.units[k]? = some .done := by
    intro h
    rw [hunits, hkk]
    split
    · next hik =>
      subst hik
      rw [hu] at h
      rcases h with h | h
      · have := hex (by simpa using h); subst this; exact Or.inr rfl
      · exact absurd (by simpa using h) hdone
    · exact h
  refine ⟨?_, ?_, ?_, ?_⟩
  · intro j w hj hw
    rw [hunits, List.getElem?_set] at hw
    split at hw
    · next hij =>
      subst hij
      split at hw
      · cases hw; exact hclean hj
      · cases hw
    · exact hk.clean j w hj hw
  · intro h
    rw [hret] at h
    have := hk.errLen h
    rw [hunits, hkk]
    split
    · next hik => subst hik; rw [hu] at this; omega
    · next hik =>
      have h0 := herrNe hik
      omega
  · intro h
    rcases hc h with h1 | ⟨h1, h2⟩
    · rcases hk.cancelledK h1 with h3 | h3
      · exact Or.inl (by rw [hret]; exact h3)
      · exact Or.inr (hKeep h3)
    · subst h1 h2
      exact Or.inr (Or.inl (by rw [hunits]; exact getElem?_set_self_of_some _ _ _ _ hu))
  · intro h
    have h' : s.main = .wait ∨ s.main = .select ∨ s.isReturned = true := by
      rw [hmain, hret] at h; exact h
    rcases hk.allSpawned h' with h1 | h1
    · exact Or.inl (by rw [hunits, List.length_set]; exact h1)
    · exact Or.inr (hKeep h1)

theorem invK_trans {cfg : Config} {k : Nat} {s s' : State} {a : Action}
    (hsucc : SucceedsExcept cfg k) (hi : Inv cfg s) (hk : InvK cfg k s)
    (h : Trans cfg s a s') : InvK cfg k s' := by
  have hrep : ∀ i u, s.units[i]? = some u → u.reporting = true → i = k := by
    intro i u hu hr
    by_contra hne
    rw [hk.clean i u hne hu] at hr; cases hr
  cases h with
  | spawn i p hm hp =>
    have hl := hi.atSpawn i hm
    have hget : ∀ j, j ≠ s.units.length → (s.units ++ [UnitPc.acquire])[j]? = s.units[j]? := by
      intro j hj
      rw [List.getElem?_append]
      split
      · rfl
      · next hlt =>
        have h1 : s.units[j]? = none := List.getElem?_eq_none (by omega)
        have h2 : [UnitPc.acquire][j - s.units.length]? = none :=
          List.getElem?_eq_none (by simp; omega)
        rw [h1, h2]
    refine ⟨?_, ?_, ?_, ?_⟩
    · intro j u hj hu
      by_cases hjl : j = s.units.length
      · subst hjl
        simp at hu; subst hu; rfl
      · exact hk.clean j u hj (by rw [← hget j hjl]; exact hu)
    · intro _
      have := hk.errLen (by simp [State.isReturned, hm])
      by_cases hkl : k = s.units.length
      · have hnone : s.units[k]? = none := List.getElem?_eq_none (by omega)
        rw [hnone] at this
        simp [UnitPc.pastSend] at this
        simp [this]
      · show s.errCh.length ≤ UnitPc.pastSend (s.units ++ [UnitPc.acquire])[k]?
        rw [hget k hkl]; exact this
    · intro hc
      rcases hk.cancelledK hc with h | h
      · simp [State.isReturned, hm] at h
      · have hkl : k ≠ s.units.length := by
          intro hkl
          have hnone : s.units[k]? = none := List.getElem?_eq_none (by omega)
          rw [hnone] at h; simp at h
        right
        show (s.units ++ [UnitPc.acquire])[k]? = _ ∨ (s.units ++ [UnitPc.acquire])[k]? = _
        rw [hget k hkl]; exact h
    · intro h
      simp [State.isReturned] at h
  | loopEnd i hm hp =>
    refine invK_main hk rfl (fun _ => ⟨rfl, by simp [State.isReturned, hm]⟩)
      (fun h => Or.inr ⟨h, by simp [State.isReturned, hm]⟩) (fun _ => Or.inl ?_)
    have h1 := hi.atSpawn i hm
    have h2 := hi.len
    have h3 : cfg.params.length ≤ i := by
      by_contra hc
      rw [List.getElem?_eq_getElem (by omega)] at hp; cases hp
    omega
  | leave i hm hc =>
    refine invK_main hk rfl (fun _ => ⟨rfl, by simp [State.isReturned, hm]⟩)
      (fun h => Or.inr ⟨h, by simp [State.isReturned, hm]⟩) (fun _ => Or.inr ?_)
    rcases hk.cancelledK hc with h | h
    · simp [State.isReturned, hm] at h
    · exact h
  | next i hm hc =>
    exact invK_main hk rfl (fun _ => ⟨rfl, by simp [State.isReturned, hm]⟩)
      (fun h => Or.inr ⟨h, by simp [State.isReturned, hm]⟩) (by simp [State.isReturned])
  | join hm hw =>
    exact invK_main hk rfl (fun _ => ⟨rfl, by simp [State.isReturned, hm]⟩)
      (fun h => Or.inr ⟨h, by simp [State.isReturned, hm]⟩)
      (fun _ => hk.allSpawned (Or.inl hm))
  | selectErr e rest hm he =>
    exact invK_main hk rfl (by simp [State.isReturned]) (by simp [State.isReturned])
      (fun _ => hk.allSpawned (Or.inr (Or.inl hm)))
  | selectNone hm he =>
    exact invK_main hk rfl (by simp [State.isReturned]) (by simp [State.isReturned])
      (fun _ => hk.allSpawned (Or.inr (Or.inl hm)))
  | acquire i d hu hb =>
    exact invK_unit hk hu _ rfl rfl (fun _ => rfl) (by simp [UnitPc.pastSend]) (fun _ => by simp)
      (fun h => Or.inl h) (by simp) (by simp)
  | jobReturn i d p hu hp =>
    refine invK_unit hk hu _ rfl rfl (fun hik => ?_) (by simp [UnitPc.pastSend])
      (fun _ => by simp) (fun h => Or.inl h) (by simp) (by simp)
    rw [hsucc i p hik hp]; rfl
  | release i d err hu =>
    refine invK_unit hk hu _ rfl rfl (fun hik => ?_) (by simp [UnitPc.pastSend])
      (fun _ => by simp) (fun h => Or.inl h) (by simp) (by simp)
    have := hk.clean i _ hik hu
    cases err <;> simp_all [UnitPc.reporting]
  | stopped i err hu hc =>
    exact invK_unit hk hu _ rfl rfl (fun _ => rfl) (by simp [UnitPc.pastSend]) (fun _ => by simp)
      (fun h => Or.inl h) (by simp) (by simp)
  | failed i e hu hc =>
    have hik := hrep i _ hu rfl
    exact invK_unit hk hu _ rfl rfl (fun h => absurd hik h) (by simp [UnitPc.pastSend])
      (fun _ => by simp) (fun h => Or.inl h) (by simp) (by simp)
  | finished i hu hc =>
    exact invK_unit hk hu _ rfl rfl (fun _ => rfl) (by simp [UnitPc.pastSend]) (fun _ => by simp)
      (fun h => Or.inl h) (by simp) (by simp)
  | send i msg hu hlen =>
    have hik := hrep i _ hu rfl
    exact invK_unit hk hu _ rfl rfl (fun h => absurd hik h) (by simp [UnitPc.pastSend])
      (fun h => absurd hik h) (fun h => Or.inl h) (by simp) (by simp)
  | cancel i hu =>
    have hik := hrep i _ hu rfl
    exact invK_unit hk hu _ rfl rfl (fun _ => rfl) (by simp [UnitPc.pastSend])
      (fun _ => by simp) (fun _ => Or.inr ⟨hik, rfl⟩) (by simp) (by simp)
  | exit i hu =>
    exact invK_unit hk hu _ rfl rfl (fun _ => rfl) (by simp [UnitPc.pastSend]) (fun _ => by simp)
      (fun h => Or.inl h) (by simp) (by simp)

/-! ## `downloadParallel`: no deadlock when at most one job can fail -/

theorem exists_live : ∀ (l : List UnitPc), 0 < (l.map UnitPc.live).sum →
    ∃ (i : Nat) (u : UnitPc), l[i]? = some u ∧ u ≠ .done
  | [], h => by simp at h
  | x :: l, h => by
    by_cases hx : x = .done
    · subst hx
      simp [UnitPc.live] at h
      obtain ⟨i, u, hu, hd⟩ := exists_live l (by simpa using h)
      exact ⟨i + 1, u, by simpa using hu, hd⟩
    · exact ⟨0, x, by simp, hx⟩

/-- A goroutine that is neither waiting for a downloader nor sending nor
finished can take its step. -/
theorem unit_enabled {cfg : Config} {s : State} (hi : Inv cfg s) {i : Nat} {u : UnitPc}
    (hu : s.units[i]? = some u) (h1 : u ≠ .acquire) (h2 : ∀ m, u ≠ .send m) (h3 : u ≠ .done) :
    (step cfg s (.unit i)).isSome = true := by
  have hlt : i < cfg.params.length := Nat.lt_of_lt_of_le (lt_length_of_getElem? hu) hi.len
  have hp : cfg.params[i]? = some cfg.params[i] := List.getElem?_eq_getElem hlt
  cases u with
  | acquire => exact absurd rfl h1
  | running d => simp [step, stepUnit, hu, hp]
  | release d e => simp [step, stepUnit, hu]
  | checkCtx e =>
    simp only [step, stepUnit, hu]
    split
    · rfl
    · cases e <;> rfl
  | send m => exact absurd rfl (h2 m)
  | cancel => simp [step, stepUnit, hu]
  | exit => simp [step, stepUnit, hu]
  | done => exact absurd rfl h3

/-- A goroutine waiting for a downloader can take one, or a goroutine that
holds one can move. -/
theorem acquire_enabled {cfg : Config} {s : State} (hsize : 1 ≤ cfg.size) (hi : Inv cfg s)
    {i : Nat} (hu : s.units[i]? = some .acquire) : ∃ a, (step cfg s a).isSome = true := by
  by_cases hfree : false ∈ s.busy
  · obtain ⟨d, hd⟩ := List.mem_iff_getElem?.1 hfree
    exact ⟨.acquire i d, by simp [step, stepAcquire, hu, hd]⟩
  · have h0 : 0 < s.busy.length := by rw [hi.busyLen]; omega
    have hb : s.busy[0]? = some true := by
      rw [List.getElem?_eq_getElem h0]
      have hm : s.busy[0] ∈ s.busy := List.getElem_mem h0
      cases hv : s.busy[0] with
      | true => rfl
      | false => rw [hv] at hm; exact absurd hm hfree
    obtain ⟨j, w, hj, hw⟩ := hi.held 0 hb
    refine ⟨.unit j, unit_enabled hi hj ?_ ?_ ?_⟩
    · rintro rfl; simp [UnitPc.holds] at hw
    · rintro m rfl; simp [UnitPc.holds] at hw
    · rintro rfl; simp [UnitPc.holds] at hw

/-- No deadlock when at most one job can fail and the pool is not empty. -/
theorem enabled_of_invK {cfg : Config} {k : Nat} {s : State} (hsize : 1 ≤ cfg.size)
    (hi : Inv cfg s) (hk : InvK cfg k s) (hr : s.isReturned = false) :
    ∃ a, (step cfg s a).isSome = true := by
  cases hm : s.main with
  | spawn i =>
    refine ⟨.main, ?_⟩
    simp only [step, stepMain, hm]
    split <;> rfl
  | check i =>
    refine ⟨.main, ?_⟩
    simp only [step, stepMain, hm]
    split <;> rfl
  | select =>
    refine ⟨.main, ?_⟩
    simp only [step, stepMain, hm]
    split <;> rfl
  | returned r => simp [State.isReturned, hm] at hr
  | wait =>
    by_cases hw : s.wg = 0
    · exact ⟨.main, by simp [step, stepMain, hm, hw]⟩
    · have hpos : 0 < (s.units.map UnitPc.live).sum := by rw [← hi.wg]; omega
      obtain ⟨i, u, hu, hd⟩ := exists_live s.units hpos
      by_cases ha : u = .acquire
      · subst ha; exact acquire_enabled hsize hi hu
      · by_cases hs : ∃ m, u = .send m
        · obtain ⟨m, rfl⟩ := hs
          have hik : i = k := by
            by_contra hne
            have := hk.clean i _ hne hu
            simp [UnitPc.reporting] at this
          subst hik
          have := hk.errLen hr
          rw [hu] at this
          simp [UnitPc.pastSend] at this
          refine ⟨.unit i, ?_⟩
          have hlen : s.errCh.length < cfg.size := by simp [this]; omega
          simp [step, stepUnit, hu, hlen]
        · exact ⟨.unit i, unit_enabled hi hu ha (fun m hm => hs ⟨m, hm⟩) hd⟩

/-! ## `downloadParallel`: what a returned state says -/

/-- A returned state comes from a returned state or from the final `select`. -/
theorem returned_of_trans {cfg : Config} {s s' : State} {a : Action} (h : Trans cfg s a s')
    (r : Option String) (hr : s'.main = .returned r) :
    s.main = .returned r ∨ (s.main = .select ∧ r = s.errCh.head?) := by
  cases h <;> simp_all

theorem downloadParallel_eq_some {cfg : Config} {sched : List Action} {r : Option String} :
    downloadParallel cfg sched = some r ↔ ∃ s, run cfg sched = some s ∧ s.main = .returned r := by
  unfold downloadParallel
  constructor
  · intro h
    split at h
    · next s hs =>
      split at h
      · next err hm => cases h; exact ⟨s, hs, hm⟩
      · cases h
    · cases h
  · rintro ⟨s, hs, hm⟩
    simp [hs, hm]

/-- When the body reaches `select` or has returned, every goroutine has finished. -/
theorem all_done_of_joined {cfg : Config} {s : State} (hi : Inv cfg s)
    (h : s.main = .select ∨ s.isReturned = true) : ∀ u ∈ s.units, u = .done :=
  all_done_of_live_zero s.units (by rw [← hi.wg]; exact hi.joined h)

theorem getElem?_of_all_done {l : List UnitPc} (h : ∀ u ∈ l, u = .done) {i : Nat}
    (hi : i < l.length) : l[i]? = some .done := by
  rw [List.getElem?_eq_getElem hi, h _ (List.getElem_mem hi)]

/-- The first claim's conclusion at a returned state, from the invariants. -/
theorem calls_of_returned {cfg : Config} {s : State} (hi : Inv cfg s)
    (hr : s.isReturned = true) (hlen : s.units.length = cfg.params.length) :
    s.calls.length = cfg.params.length ∧ ∀ i, i < cfg.params.length → s.calls.count i = 1 := by
  have hd := all_done_of_joined hi (Or.inr hr)
  refine ⟨?_, ?_⟩
  · rw [hi.callsLen, sum_invoked_of_all_done _ hd, hlen]
  · intro i hlt
    rw [hi.callsCount i, getElem?_of_all_done hd (by omega)]
    rfl

theorem calls_count_le_one {cfg : Config} {s : State} (hi : Inv cfg s) (i : Nat) :
    s.calls.count i ≤ 1 := by
  rw [hi.callsCount i]
  cases s.units[i]? with
  | none => simp
  | some u => cases u <;> simp [UnitPc.invoked]

/-! ## `downloadParallel` when no job fails -/

theorem succeedsExcept_of_all {cfg : Config}
    (hok : ∀ c d p, p ∈ cfg.params → cfg.downloadFn c d p = none) (k : Nat) :
    SucceedsExcept cfg k :=
  fun _ p _ hp c d => hok c d p (List.getElem?_mem hp)

theorem allOk_trans {cfg : Config}
    (hok : ∀ c d p, p ∈ cfg.params → cfg.downloadFn c d p = none)
    (s : State) (a : Action) (s' : State) (h : AllOk cfg s) (ht : Trans cfg s a s') :
    AllOk cfg s' := by
  obtain ⟨hi, hk, hres⟩ := h
  refine ⟨inv_trans hi ht, invK_trans (succeedsExcept_of_all hok _) hi hk ht, ?_⟩
  intro r hr
  rcases returned_of_trans ht r hr with h | ⟨hm, rfl⟩
  · exact hres r h
  · have hlen := hk.errLen (by simp [State.isReturned, hm])
    have hnone : s.units[cfg.params.length]? = none := List.getElem?_eq_none hi.len
    rw [hnone] at hlen
    simp [UnitPc.pastSend] at hlen
    simp [hlen]

theorem allOk_init (cfg : Config) : AllOk cfg (init cfg) :=
  ⟨inv_init cfg, invK_init cfg _, by simp [init]⟩

/-- C1: with a pool of at least one downloader and a job function that
returns nil for every element of `params`, every schedule of `downloadParallel`
is finite (at most `9 * N + 3` steps) and never deadlocks before the return,
so that it can always be run to the return, and some schedule does so; whenever
it has returned, the result is nil and `downloadFn` has been called exactly once
for each of the `N` positions (and at no time more than once for any position). -/
theorem downloadParallel_all_succeed (cfg : Config) (hsize : 1 ≤ cfg.size)
    (hok : ∀ c d p, p ∈ cfg.params → cfg.downloadFn c d p = none) :
    (∃ sched, downloadParallel cfg sched = some none) ∧
    (∀ sched r, downloadParallel cfg sched = some r → r = none) ∧
    ∀ sched s, run cfg sched = some s →
      sched.length ≤ 9 * cfg.params.length + 3 ∧
      (s.isReturned = false → ∃ a, (step cfg s a).isSome = true) ∧
      (∀ i, s.calls.count i ≤ 1) ∧
      (∀ r, s.main = .returned r →
        r = none ∧ s.calls.length = cfg.params.length ∧
        ∀ i, i < cfg.params.length → s.calls.count i = 1) := by
  have hall : ∀ sched s, run cfg sched = some s → AllOk cfg s := fun sched s h =>
    exec_preserves (AllOk cfg) (allOk_trans hok) sched _ s (allOk_init cfg) h
  refine ⟨?_, fun sched r h => ?_, fun sched s h => ?_⟩
  · obtain ⟨sched, s, h, hr, hp⟩ :=
      exists_run_to_return (AllOk cfg) (allOk_trans hok) (fun s h => h.1)
        (fun s h hr => enabled_of_invK hsize h.1 h.2.1 hr)
        (9 * cfg.params.length + 3) (init cfg) (allOk_init cfg) (by omega)
    refine ⟨sched, downloadParallel_eq_some.2 ⟨s, h, ?_⟩⟩
    cases hm : s.main with
    | returned r => rw [hp.2.2 r hm]
    | _ => simp [State.isReturned, hm] at hr
  · obtain ⟨s, hs, hm⟩ := downloadParallel_eq_some.1 h
    exact (hall sched s hs).2.2 r hm
  · obtain ⟨hi, hk, hres⟩ := hall sched s h
    refine ⟨run_length_le h, fun hr => enabled_of_invK hsize hi hk hr,
      calls_count_le_one hi, fun r hm => ?_⟩
    have hr : s.isReturned = true := by simp [State.isReturned, hm]
    have hlen : s.units.length = cfg.params.length := by
      rcases hk.allSpawned (Or.inr (Or.inr hr)) with h1 | h1
      · exact h1
      · have hnone : s.units[cfg.params.length]? = none := List.getElem?_eq_none hi.len
        rw [hnone] at h1; simp at h1
    exact ⟨hres r hm, calls_of_returned hi hr hlen⟩

/-- C1, at a concrete input: three organisations, two downloaders, no failure;
some schedule returns nil. -/
theorem downloadParallel_all_succeed_witness :
    1 ≤ cfgOk.size ∧ (∀ c d p, p ∈ cfgOk.params → cfgOk.downloadFn c d p = none) ∧
    ∃ sched, downloadParallel cfgOk sched = some none :=
  ⟨by decide, fun _ _ _ _ => rfl,
    (downloadParallel_all_succeed cfgOk (by decide) (fun _ _ _ _ => rfl)).1⟩

/-! ## `downloadParallel` when exactly one job fails -/

theorem invOne_init (cfg : Config) (k : Nat) (e : String) : InvOne cfg k e (init cfg) where
  carried := by intro u h; simp [init] at h
  sent := by simp [init, UnitPc.pastSend]
  result := by simp [init]

/-- `InvOne` survives a step of the body that starts no goroutine and is not
the final `select`. -/
theorem invOne_main {cfg : Config} {k : Nat} {e : String} {s s' : State}
    (ho : InvOne cfg k e s) (hunits : s'.units = s.units) (herr : s'.errCh = s.errCh)
    (hret : s'.isReturned = false) (hret' : s.isReturned = false) : InvOne cfg k e s' := by
  refine ⟨?_, ?_, ?_⟩
  · rw [hunits]; exact ho.carried
  · intro _ h
    rw [hunits] at h
    rw [herr]; exact ho.sent hret' h
  · intro r hr
    simp [State.isReturned, hr] at hret

/-- `InvOne` survives a step of a goroutine other than `k` that leaves `errCh` alone. -/
theorem invOne_other {cfg : Config} {k : Nat} {e : String} {s s' : State}
    (ho : InvOne cfg k e s) {i : Nat} {u : UnitPc} (_hu : s.units[i]? = some u) (v : UnitPc)
    (hik : i ≠ k) (hmain : s'.main = s.main) (hunits : s'.units = s.units.set i v)
    (herr : s'.errCh = s.errCh) : InvOne cfg k e s' := by
  have hkk : s'.units[k]? = s.units[k]? := by
    rw [hunits, List.getElem?_set_ne hik]
  have hret : s'.isReturned = s.isReturned := by simp [State.isReturned, hmain]
  refine ⟨?_, ?_, ?_⟩
  · rw [hkk]; exact ho.carried
  · rw [hkk, hret, herr]; exact ho.sent
  · rw [hmain]; exact ho.result

/-- `InvOne` survives a step of goroutine `k` from `u` to `v`. -/
theorem invOne_self {cfg : Config} {k : Nat} {e : String} {s s' : State}
    (ho : InvOne cfg k e s) {u : UnitPc} (hu : s.units[k]? = some u) (v : UnitPc)
    (hmain : s'.main = s.main) (hunits : s'.units = s.units.set k v)
    (hcar : v.carries cfg.resourceType e)
    (hsent : s.isReturned = false → UnitPc.pastSend (some v) = 1 →
      s'.errCh = [wrapError cfg.resourceType e]) : InvOne cfg k e s' := by
  have hkk : s'.units[k]? = some v := by
    rw [hunits]; exact getElem?_set_self_of_some _ _ _ _ hu
  have hret : s'.isReturned = s.isReturned := by simp [State.isReturned, hmain]
  refine ⟨?_, ?_, ?_⟩
  · intro w hw
    rw [hkk] at hw; cases hw; exact hcar
  · rw [hkk, hret]; exact hsent
  · rw [hmain]; exact ho.result

theorem invOne_trans {cfg : Config} {k : Nat} {p e : String} {s s' : State} {a : Action}
    (hp : cfg.params[k]? = some p) (hfail : ∀ c d, cfg.downloadFn c d p = some e)
    (hi : Inv cfg s) (hk : InvK cfg k s) (ho : InvOne cfg k e s)
    (h : Trans cfg s a s') : InvOne cfg k e s' := by
  have hrep : ∀ i u, s.units[i]? = some u → u.reporting = true → i = k := by
    intro i u hu hr
    by_contra hne
    rw [hk.clean i u hne hu] at hr; cases hr
  have hkN : k < cfg.params.length := lt_length_of_getElem? hp
  have hsel : s.main = .select → s.errCh = [wrapError cfg.resourceType e] := by
    intro hm
    have hnr : s.isReturned = false := by simp [State.isReturned, hm]
    have hd := all_done_of_joined hi (Or.inl hm)
    have hkd : s.units[k]? = some .done := by
      rcases hk.allSpawned (Or.inr (Or.inl hm)) with h1 | h1 | h1
      · exact getElem?_of_all_done hd (by omega)
      · have := hd _ (List.getElem?_mem h1); cases this
      · exact h1
    exact ho.sent hnr (by rw [hkd]; rfl)
  cases h with
  | spawn i q hm hq =>
    have hl := hi.atSpawn i hm
    have hnr : s.isReturned = false := by simp [State.isReturned, hm]
    have hget : (s.units ++ [UnitPc.acquire])[k]? =
        if k = s.units.length then some .acquire else s.units[k]? := by
      rw [List.getElem?_append]
      split
      · next hlt => rw [if_neg (by omega)]
      · next hlt =>
        split
        · next heq => simp [heq]
        · next hne =>
          have h1 : s.units[k]? = none := List.getElem?_eq_none (by omega)
          have h2 : [UnitPc.acquire][k - s.units.length]? = none :=
            List.getElem?_eq_none (by simp; omega)
          rw [h1, h2]
    refine ⟨?_, ?_, ?_⟩
    · intro u hu
      change (s.units ++ [UnitPc.acquire])[k]? = some u at hu
      rw [hget] at hu
      split at hu
      · cases hu; trivial
      · exact ho.carried u hu
    · intro _ hps
      change UnitPc.pastSend (s.units ++ [UnitPc.acquire])[k]? = 1 at hps
      rw [hget] at hps
      split at hps
      · simp [UnitPc.pastSend] at hps
      · exact ho.sent hnr hps
    · intro r hr; simp at hr
  | loopEnd i hm hq =>
    exact invOne_main ho rfl rfl (by simp [State.isReturned]) (by simp [State.isReturned, hm])
  | leave i hm hc =>
    exact invOne_main ho rfl rfl (by simp [State.isReturned]) (by simp [State.isReturned, hm])
  | next i hm hc =>
    exact invOne_main ho rfl rfl (by simp [State.isReturned]) (by simp [State.isReturned, hm])
  | join hm hw =>
    exact invOne_main ho rfl rfl (by simp [State.isReturned]) (by simp [State.isReturned, hm])
  | selectErr x rest hm he =>
    have := hsel hm
    rw [he] at this
    refine ⟨ho.carried, by simp [State.isReturned], ?_⟩
    intro r hr
    simp at hr this
    rw [← hr, this.1]
  | selectNone hm he =>
    have := hsel hm
    rw [he] at this; cases this
  | acquire i d hu hb =>
    by_cases hik : i = k
    · subst hik
      exact invOne_self ho hu _ rfl rfl trivial (by simp [UnitPc.pastSend])
    · exact invOne_other ho hu _ hik rfl rfl rfl
  | jobReturn i d q hu hq =>
    by_cases hik : i = k
    · subst hik
      rw [hp] at hq; cases hq
      exact invOne_self ho hu _ rfl rfl (hfail _ _) (by simp [UnitPc.pastSend])
    · exact invOne_other ho hu _ hik rfl rfl rfl
  | release i d err hu =>
    by_cases hik : i = k
    · subst hik
      exact invOne_self ho hu _ rfl rfl (ho.carried (.release d err) hu)
        (by simp [UnitPc.pastSend])
    · exact invOne_other ho hu _ hik rfl rfl rfl
  | stopped i err hu hc =>
    by_cases hik : i = k
    · subst hik
      rcases hk.cancelledK hc with h1 | h1 | h1
      · exact invOne_self ho hu _ rfl rfl trivial (fun h2 => by rw [h1] at h2; cases h2)
      · rw [hu] at h1; cases h1
      · rw [hu] at h1; cases h1
    · exact invOne_other ho hu _ hik rfl rfl rfl
  | failed i x hu hc =>
    have hik := hrep i _ hu rfl
    subst hik
    have hx : x = e := by simpa [UnitPc.carries] using ho.carried _ hu
    subst hx
    exact invOne_self ho hu _ rfl rfl rfl (by simp [UnitPc.pastSend])
  | finished i hu hc =>
    by_cases hik : i = k
    · subst hik
      have := ho.carried _ hu
      simp [UnitPc.carries] at this
    · exact invOne_other ho hu _ hik rfl rfl rfl
  | send i msg hu hlen =>
    have hik := hrep i _ hu rfl
    subst hik
    have hmsg : msg = wrapError cfg.resourceType e := ho.carried _ hu
    refine invOne_self ho hu _ rfl rfl trivial (fun hnr _ => ?_)
    have hl := hk.errLen hnr
    rw [hu] at hl
    simp [UnitPc.pastSend] at hl
    simp [hl, hmsg]
  | cancel i hu =>
    have hik := hrep i _ hu rfl
    subst hik
    exact invOne_self ho hu _ rfl rfl trivial (fun hnr _ => ho.sent hnr (by rw [hu]; rfl))
  | exit i hu =>
    by_cases hik : i = k
    · subst hik
      exact invOne_self ho hu _ rfl rfl trivial (fun hnr _ => ho.sent hnr (by rw [hu]; rfl))
    · exact invOne_other ho hu _ hik rfl rfl rfl

/-! ## `downloadParallel`: the error returned for one failing job -/

theorem occursIn_wrapError_resourceType (resourceType e : String) :
    occursIn resourceType (wrapError resourceType e) :=
  ⟨"error while downloading ".data, ": ".data ++ e.data, by
    simp [wrapError, String.data_append]⟩

theorem occursIn_wrapError_err (resourceType e : String) :
    occursIn e (wrapError resourceType e) :=
  ⟨"error while downloading ".data ++ resourceType.data ++ ": ".data, [], by
    simp [wrapError, String.data_append]⟩

theorem oneFails_trans {cfg : Config} {k : Nat} {p e : String}
    (hp : cfg.params[k]? = some p) (hfail : ∀ c d, cfg.downloadFn c d p = some e)
    (hsucc : SucceedsExcept cfg k)
    (s : State) (a : Action) (s' : State) (h : OneFails cfg k e s) (ht : Trans cfg s a s') :
    OneFails cfg k e s' :=
  ⟨inv_trans h.1 ht, invK_trans hsucc h.1 h.2.1 ht, invOne_trans hp hfail h.1 h.2.1 h.2.2 ht⟩

theorem oneFails_init (cfg : Config) (k : Nat) (e : String) : OneFails cfg k e (init cfg) :=
  ⟨inv_init cfg, invK_init cfg k, invOne_init cfg k e⟩

/-- C2 (as amended): when the job at position `k` (identifier `p`) fails with
error `e` on every call and no other job can fail, with a pool of at least one
downloader: every schedule of `downloadParallel` is finite, never deadlocks
before the return, calls `downloadFn` at most `N` times, and some schedule
reaches the return; whenever it has returned, the result is the error with text
`"error while downloading " ++ resourceType ++ ": " ++ e`, which contains
`resourceType` and the text of `e` (and nothing else of the job: `p` is not
added). -/
theorem downloadParallel_one_failure (cfg : Config) (k : Nat) (p e : String)
    (hsize : 1 ≤ cfg.size) (hp : cfg.params[k]? = some p)
    (hfail : ∀ c d, cfg.downloadFn c d p = some e) (hsucc : SucceedsExcept cfg k) :
    (∃ sched, downloadParallel cfg sched = some (some (wrapError cfg.resourceType e))) ∧
    (∀ sched r, downloadParallel cfg sched = some r →
      r = some (wrapError cfg.resourceType e)) ∧
    (∀ sched s, run cfg sched = some s →
      sched.length ≤ 9 * cfg.params.length + 3 ∧
      (s.isReturned = false → ∃ a, (step cfg s a).isSome = true) ∧
      s.calls.length ≤ cfg.params.length ∧
      (∀ r, s.main = .returned r → r = some (wrapError cfg.resourceType e))) ∧
    occursIn cfg.resourceType (wrapError cfg.resourceType e) ∧
    occursIn e (wrapError cfg.resourceType e) := by
  have hall : ∀ sched s, run cfg sched = some s → OneFails cfg k e s := fun sched s h =>
    exec_preserves (OneFails cfg k e) (oneFails_trans hp hfail hsucc) sched _ s
      (oneFails_init cfg k e) h
  refine ⟨?_, fun sched r h => ?_, fun sched s h => ?_, occursIn_wrapError_resourceType _ _,
    occursIn_wrapError_err _ _⟩
  · obtain ⟨sched, s, h, hr, hP⟩ :=
      exists_run_to_return (OneFails cfg k e) (oneFails_trans hp hfail hsucc) (fun s h => h.1)
        (fun s h hr => enabled_of_invK hsize h.1 h.2.1 hr)
        (9 * cfg.params.length + 3) (init cfg) (oneFails_init cfg k e) (by omega)
    refine ⟨sched, downloadParallel_eq_some.2 ⟨s, h, ?_⟩⟩
    cases hm : s.main with
    | returned r => rw [hP.2.2.result r hm]
    | _ => simp [State.isReturned, hm] at hr
  · obtain ⟨s, hs, hm⟩ := downloadParallel_eq_some.1 h
    exact (hall sched s hs).2.2.result r hm
  · obtain ⟨hi, hk, ho⟩ := hall sched s h
    refine ⟨run_length_le h, fun hr => enabled_of_invK hsize hi hk hr, ?_, ho.result⟩
    rw [hi.callsLen]
    have := sum_map_le_mul UnitPc.invoked 1 (fun u => by cases u <;> simp [UnitPc.invoked])
      s.units
    have := hi.len
    omega

/-- C2 (as amended), at a concrete input: the one organisation `acme` fails with
`boom`, and some schedule returns the wrapping of `boom`. -/
theorem downloadParallel_one_failure_witness :
    1 ≤ cfgAcme.size ∧ cfgAcme.params[0]? = some "acme" ∧
    ∃ sched, downloadParallel cfgAcme sched
      = some (some (wrapError cfgAcme.resourceType "boom")) :=
  ⟨by decide, by decide,
    (downloadParallel_one_failure cfgAcme 0 "acme" "boom" (by decide) (by decide)
      (fun _ _ => rfl) (fun j p hj hp => by
        have : j < cfgAcme.params.length := lt_length_of_getElem? hp
        simp [cfgAcme, downloadOrgs] at this
        omega)).1⟩

/-- C2 fails as stated: the only job, `acme`, fails with an error whose text
is `boom`; `downloadParallel` returns the error
`error while downloading org: boom`, in which `acme` does not occur. -/
theorem downloadParallel_error_omits_identifier :
    cfgAcme.params = ["acme"] ∧ cfgAcme.resourceType = "org" ∧
    cfgAcme.downloadFn false 0 "acme" = some "boom" ∧
    downloadParallel cfgAcme schedAcme = some (some "error while downloading org: boom") ∧
    ¬ occursIn "acme" "error while downloading org: boom" := by
  decide

/-! ## `downloadParallel`: where the errors of the jobs go -/

/-- Nothing moves after the return. -/
theorem not_returned_of_trans {cfg : Config} {s s' : State} {a : Action} (hi : Inv cfg s)
    (h : Trans cfg s a s') : s.isReturned = false := by
  cases hr : s.isReturned with
  | false => rfl
  | true =>
    have hd := all_done_of_joined hi (Or.inr hr)
    have key : ∀ (i : Nat) (u : UnitPc), s.units[i]? = some u → u ≠ UnitPc.done → False :=
      fun i u hu hne =>
      hne (hd u (List.getElem?_mem hu))
    cases h with
    | spawn i p hm hp => simp [State.isReturned, hm] at hr
    | loopEnd i hm hp => simp [State.isReturned, hm] at hr
    | leave i hm hc => simp [State.isReturned, hm] at hr
    | next i hm hc => simp [State.isReturned, hm] at hr
    | join hm hw => simp [State.isReturned, hm] at hr
    | selectErr e rest hm he => simp [State.isReturned, hm] at hr
    | selectNone hm he => simp [State.isReturned, hm] at hr
    | acquire i d hu hb => exact (key i _ hu (by simp)).elim
    | jobReturn i d p hu hp => exact (key i _ hu (by simp)).elim
    | release i d err hu => exact (key i _ hu (by simp)).elim
    | stopped i err hu hc => exact (key i _ hu (by simp)).elim
    | failed i e hu hc => exact (key i _ hu (by simp)).elim
    | finished i hu hc => exact (key i _ hu (by simp)).elim
    | send i msg hu hlen => exact (key i _ hu (by simp)).elim
    | cancel i hu => exact (key i _ hu (by simp)).elim
    | exit i hu => exact (key i _ hu (by simp)).elim

theorem invR_init (cfg : Config) : InvR cfg (init cfg) where
  returnedJob := by intro i u h; simp [init] at h
  carried := by intro i u h; simp [init] at h
  chan := by simp [init]
  nonEmpty := by simp [init]
  failedR := by simp [init, State.someJobFailed]
  resultR := by simp [init]

/-- `InvR` survives a step of the body that starts no goroutine and is not
the final `select`. -/
theorem invR_main {cfg : Config} {s s' : State} (hr : InvR cfg s)
    (hunits : s'.units = s.units) (herr : s'.errCh = s.errCh)
    (hres : s'.results = s.results) (hc : s'.cancelled = s.cancelled)
    (hret : s'.isReturned = false) (hret' : s.isReturned = false) : InvR cfg s' := by
  refine ⟨?_, ?_, ?_, ?_, ?_, ?_⟩
  · rw [hunits, hres]; exact hr.returnedJob
  · rw [hunits, hres]; exact hr.carried
  · rw [herr]; unfold State.wrapsJobError; rw [hres]; exact hr.chan
  · rw [hunits, herr, hc]; exact fun _ => hr.nonEmpty hret'
  · unfold State.someJobFailed; rw [hunits, herr, hres]; exact fun _ => hr.failedR hret'
  · intro r h; simp [State.isReturned, h] at hret

theorem carriesFrom_mono {resourceType : String} {i : Nat} {u : UnitPc}
    {r r' : List (Nat × Option String)} (hsub : ∀ x ∈ r, x ∈ r')
    (h : u.carriesFrom resourceType i r) : u.carriesFrom resourceType i r' := by
  cases u with
  | release d e => cases e with
    | none => trivial
    | some e => exact hsub _ h
  | checkCtx e => cases e with
    | none => trivial
    | some e => exact hsub _ h
  | send m => obtain ⟨e, h1, h2⟩ := h; exact ⟨e, hsub _ h1, h2⟩
  | _ => trivial

/-- `InvR` survives a step of goroutine `i` from `u` to `v` before the return. -/
theorem invR_unit {cfg : Config} {s s' : State} (hr : InvR cfg s)
    {i : Nat} {u : UnitPc} (hu : s.units[i]? = some u) (v : UnitPc)
    (hmain : s'.main = s.main) (hunits : s'.units = s.units.set i v)
    (hnr : s.isReturned = false)
    (hres : ∀ x ∈ s.results, x ∈ s'.results)
    (hjob : 2 ≤ v.rank → ∃ err, (i, err) ∈ s'.results)
    (hcar : v.carriesFrom cfg.resourceType i s'.results)
    (hchan : ∀ m ∈ s'.errCh, m ∈ s.errCh ∨ s'.wrapsJobError cfg m)
    (hne : s.errCh ≠ [] → s'.errCh ≠ [])
    (hcan : s'.cancelled = true → s.cancelled = true ∨ u = .cancel)
    (hvc : v = .cancel → s'.errCh ≠ [])
    (hfail : s'.someJobFailed → s.someJobFailed ∨ v.pending = true)
    (hpend : u.pending = true → v.pending = true ∨ s'.errCh ≠ []) : InvR cfg s' := by
  have hlt := lt_length_of_getElem? hu
  have hret : s'.isReturned = false := by simpa [State.isReturned, hmain] using hnr
  have hwrap : ∀ m, s.wrapsJobError cfg m → s'.wrapsJobError cfg m := by
    rintro m ⟨j, e, h1, h2⟩; exact ⟨j, e, hres _ h1, h2⟩
  refine ⟨?_, ?_, ?_, ?_, ?_, ?_⟩
  · intro j w hw hrank
    rw [hunits, getElem?_set_k _ _ _ _ v hu] at hw
    split at hw
    · next hij =>
      subst hij
      cases hw
      exact hjob hrank
    · obtain ⟨err, h⟩ := hr.returnedJob j w hw hrank
      exact ⟨err, hres _ h⟩
  · intro j w hw
    rw [hunits, getElem?_set_k _ _ _ _ v hu] at hw
    split at hw
    · next hij =>
      subst hij
      cases hw
      exact hcar
    · exact carriesFrom_mono hres (hr.carried j w hw)
  · intro m hm
    rcases hchan m hm with h | h
    · exact hwrap m (hr.chan m h)
    · exact h
  · intro _ h
    rcases h with h | ⟨j, hj⟩
    · rcases hcan h with h1 | h1
      · exact hne (hr.nonEmpty hnr (Or.inl h1))
      · subst h1
        exact hne (hr.nonEmpty hnr (Or.inr ⟨i, hu⟩))
    · rw [hunits, getElem?_set_k _ _ _ _ v hu] at hj
      split at hj
      · next hij =>
        subst hij
        exact hvc (by cases hj; rfl)
      · exact hne (hr.nonEmpty hnr (Or.inr ⟨j, hj⟩))
  · intro _ hf
    rcases hfail hf with h | h
    · rcases hr.failedR hnr h with h1 | ⟨j, w, hj, hw⟩
      · exact Or.inl (hne h1)
      · by_cases hij : i = j
        · subst hij
          rw [hu] at hj; cases hj
          rcases hpend hw with h2 | h2
          · exact Or.inr ⟨i, v, by rw [hunits]; exact List.getElem?_set_self hlt, h2⟩
          · exact Or.inl h2
        · exact Or.inr ⟨j, w, by rw [hunits, List.getElem?_set_ne hij]; exact hj, hw⟩
    · exact Or.inr ⟨i, v, by rw [hunits]; exact List.getElem?_set_self hlt, h⟩
  · intro r h
    rw [hmain] at h
    simp [State.isReturned, h] at hnr

theorem getElem?_append_acquire {l : List UnitPc} {j : Nat} {w : UnitPc}
    (h : (l ++ [UnitPc.acquire])[j]? = some w) : l[j]? = some w ∨ w = .acquire := by
  rw [List.getElem?_append] at h
  split at h
  · exact Or.inl h
  · have := List.getElem?_mem h
    simp at this
    exact Or.inr this

theorem invR_trans {cfg : Config} {s s' : State} {a : Action} (hi : Inv cfg s)
    (hr : InvR cfg s) (h : Trans cfg s a s') : InvR cfg s' := by
  have hnr := not_returned_of_trans hi h
  have hres0 : ∀ x ∈ s.results, x ∈ s.results := fun _ hx => hx
  cases h with
  | spawn i p hm hp =>
    refine ⟨?_, ?_, hr.chan, ?_, ?_, ?_⟩
    · intro j w hw hrank
      rcases getElem?_append_acquire hw with h | h
      · exact hr.returnedJob j w h hrank
      · subst h; simp [UnitPc.rank] at hrank
    · intro j w hw
      rcases getElem?_append_acquire hw with h | h
      · exact hr.carried j w h
      · subst h; trivial
    · intro _ h
      refine hr.nonEmpty hnr ?_
      rcases h with h | ⟨j, hj⟩
      · exact Or.inl h
      · rcases getElem?_append_acquire hj with h | h
        · exact Or.inr ⟨j, h⟩
        · cases h
    · intro _ hf
      rcases hr.failedR hnr hf with h | ⟨j, w, hj, hw⟩
      · exact Or.inl h
      · refine Or.inr ⟨j, w, ?_, hw⟩
        show (s.units ++ [UnitPc.acquire])[j]? = some w
        rw [List.getElem?_append_left (lt_length_of_getElem? hj)]; exact hj
    · intro r h; simp at h
  | loopEnd i hm hp => exact invR_main hr rfl rfl rfl rfl (by simp [State.isReturned]) hnr
  | leave i hm hc => exact invR_main hr rfl rfl rfl rfl (by simp [State.isReturned]) hnr
  | next i hm hc => exact invR_main hr rfl rfl rfl rfl (by simp [State.isReturned]) hnr
  | join hm hw => exact invR_main hr rfl rfl rfl rfl (by simp [State.isReturned]) hnr
  | selectErr e rest hm he =>
    refine ⟨hr.returnedJob, hr.carried, ?_, by simp [State.isReturned],
      by simp [State.isReturned], ?_⟩
    · intro m hm'
      exact hr.chan m (by rw [he]; exact List.mem_cons_of_mem _ hm')
    · intro r h
      simp at h; subst h
      refine ⟨fun x hx => ?_, by simp⟩
      cases hx
      exact hr.chan e (by rw [he]; exact List.mem_cons_self _ _)
  | selectNone hm he =>
    refine ⟨hr.returnedJob, hr.carried, hr.chan, by simp [State.isReturned],
      by simp [State.isReturned], ?_⟩
    intro r h
    simp at h; subst h
    refine ⟨by simp, fun _ hf => ?_⟩
    rcases hr.failedR hnr hf with h | ⟨j, w, hj, hw⟩
    · exact h he
    · have := all_done_of_joined hi (Or.inl hm) w (List.getElem?_mem hj)
      subst this; cases hw
  | acquire i d hu hb =>
    exact invR_unit hr hu _ rfl rfl hnr hres0 (by simp [UnitPc.rank]) trivial
      (fun m hm => Or.inl hm) id (fun h => Or.inl h) (by simp) (fun h => Or.inl h) (by simp [UnitPc.pending])
  | jobReturn i d p hu hp =>
    refine invR_unit hr hu _ rfl rfl hnr (fun x hx => List.mem_append_left _ hx)
      (fun _ => ⟨_, List.mem_append_right _ (List.mem_singleton_self _)⟩) ?_
      (fun m hm => Or.inl hm) id (fun h => Or.inl h) (by simp) ?_ (by simp [UnitPc.pending])
    · cases herr : cfg.downloadFn s.cancelled d p with
      | none => trivial
      | some e =>
        show (i, some e) ∈ s.results ++ [(i, some e)]
        simp
    · rintro ⟨j, e, hje⟩
      rcases List.mem_append.1 hje with h | h
      · exact Or.inl ⟨j, e, h⟩
      · simp at h
        rw [← h.2]; exact Or.inr rfl
  | release i d err hu =>
    refine invR_unit hr hu _ rfl rfl hnr hres0
      (fun _ => hr.returnedJob i _ hu (by simp [UnitPc.rank])) ?_
      (fun m hm => Or.inl hm) id (fun h => Or.inl h) (by simp) (fun h => Or.inl h) ?_
    · have := hr.carried i _ hu
      cases err with
      | none => trivial
      | some e => exact this
    · cases err <;> simp [UnitPc.pending]
  | stopped i err hu hc =>
    exact invR_unit hr hu _ rfl rfl hnr hres0
      (fun _ => hr.returnedJob i _ hu (by simp [UnitPc.rank])) trivial
      (fun m hm => Or.inl hm) id (fun h => Or.inl h) (by simp) (fun h => Or.inl h)
      (fun _ => Or.inr (hr.nonEmpty hnr (Or.inl hc)))
  | failed i e hu hc =>
    exact invR_unit hr hu _ rfl rfl hnr hres0
      (fun _ => hr.returnedJob i _ hu (by simp [UnitPc.rank])) ⟨e, hr.carried i _ hu, rfl⟩
      (fun m hm => Or.inl hm) id (fun h => Or.inl h) (by simp) (fun h => Or.inl h)
      (fun _ => Or.inl rfl)
  | finished i hu hc =>
    exact invR_unit hr hu _ rfl rfl hnr hres0
      (fun _ => hr.returnedJob i _ hu (by simp [UnitPc.rank])) trivial
      (fun m hm => Or.inl hm) id (fun h => Or.inl h) (by simp) (fun h => Or.inl h)
      (by simp [UnitPc.pending])
  | send i msg hu hlen =>
    refine invR_unit hr hu _ rfl rfl hnr hres0
      (fun _ => hr.returnedJob i _ hu (by simp [UnitPc.rank])) trivial
      ?_ (by simp) (fun h => Or.inl h) (by simp) (fun h => Or.inl h) (by simp)
    intro m hm
    rcases List.mem_append.1 hm with h | h
    · exact Or.inl h
    · simp at h; subst h
      obtain ⟨e, h1, h2⟩ := hr.carried i _ hu
      exact Or.inr ⟨i, e, h1, h2⟩
  | cancel i hu =>
    exact invR_unit hr hu _ rfl rfl hnr hres0
      (fun _ => hr.returnedJob i _ hu (by simp [UnitPc.rank])) trivial
      (fun m hm => Or.inl hm) id (fun _ => Or.inr rfl) (by simp) (fun h => Or.inl h)
      (by simp [UnitPc.pending])
  | exit i hu =>
    exact invR_unit hr hu _ rfl rfl hnr hres0
      (fun _ => hr.returnedJob i _ hu (by simp [UnitPc.rank])) trivial
      (fun m hm => Or.inl hm) id (fun h => Or.inl h) (by simp) (fun h => Or.inl h)
      (by simp [UnitPc.pending])

/-! ## `downloadParallel`: the result when it returns, and two runs that never return -/

theorem sound_trans {cfg : Config} (s : State) (a : Action) (s' : State) (h : Sound cfg s)
    (ht : Trans cfg s a s') : Sound cfg s' :=
  ⟨inv_trans h.1 ht, invR_trans h.1 h.2 ht⟩

theorem sound_init (cfg : Config) : Sound cfg (init cfg) := ⟨inv_init cfg, invR_init cfg⟩

theorem sound_of_run {cfg : Config} {sched : List Action} {s : State}
    (h : run cfg sched = some s) : Sound cfg s :=
  exec_preserves (Sound cfg) sound_trans sched _ s (sound_init cfg) h

/-- Whenever `downloadParallel` has returned, whatever the jobs, the pool size
and the schedule: the result is non-nil exactly if some call of `downloadFn`
returned an error, and a non-nil result is the wrapping of one such error. -/
theorem downloadParallel_returned_error (cfg : Config) (sched : List Action) (s : State)
    (h : run cfg sched = some s) (r : Option String) (hm : s.main = .returned r) :
    downloadParallel cfg sched = some r ∧
    (r ≠ none ↔ s.someJobFailed) ∧ (∀ x, r = some x → s.wrapsJobError cfg x) := by
  refine ⟨downloadParallel_eq_some.2 ⟨s, h, hm⟩, ?_⟩
  obtain ⟨h1, h2⟩ := (sound_of_run h).2.resultR r hm
  refine ⟨⟨fun hne => ?_, fun hf hn => h2 hn hf⟩, h1⟩
  cases r with
  | none => exact absurd rfl hne
  | some x =>
    obtain ⟨i, e, hie, _⟩ := h1 x rfl
    exact ⟨i, e, hie⟩

/-- A state in which no action is enabled stays as it is. -/
theorem exec_of_stuck {cfg : Config} {s : State} (hs : Stuck cfg s) :
    ∀ (sched : List Action) (s' : State), exec cfg s sched = some s' → s' = s
  | [], s', h => by simp [exec] at h; exact h.symm
  | a :: as, s', h => by simp [exec, hs a] at h

theorem stuck_stateBlocked : Stuck cfgBothFail stateBlocked := by
  intro a
  cases a with
  | main => rfl
  | acquire i d =>
    match i with
    | 0 => rfl
    | 1 => rfl
    | i + 2 => rfl
  | unit i =>
    match i with
    | 0 => rfl
    | 1 => rfl
    | i + 2 => rfl

theorem stuck_stateAllFail : Stuck cfgAllFail stateAllFail := by
  intro a
  cases a with
  | main => rfl
  | acquire i d =>
    match i with
    | 0 => rfl
    | 1 => rfl
    | 2 => rfl
    | i + 3 => rfl
  | unit i =>
    match i with
    | 0 => rfl
    | 1 => rfl
    | 2 => rfl
    | i + 3 => rfl

/-- C10 fails on the code: with one downloader (`errCh` of capacity 1) and two
jobs that both fail, a schedule on which both goroutines pass the test of
`ctx.Err()` before either has sent leads to a state in which both calls of
`downloadFn` have returned, `errCh` is full, goroutine 1 stands at
`errCh <- err`, `wg` is 1, the body is in `wg.Wait()`, and no step is enabled. -/
theorem downloadParallel_send_blocks :
    cfgBothFail.size = 1 ∧
    run cfgBothFail schedBlocked = some stateBlocked ∧
    stateBlocked.units[1]? = some (.send "error while downloading org: boom b") ∧
    stateBlocked.errCh.length = cfgBothFail.size ∧
    stateBlocked.results.length = cfgBothFail.params.length ∧
    stateBlocked.main = .wait ∧ stateBlocked.wg = 1 ∧
    Stuck cfgBothFail stateBlocked :=
  ⟨rfl, by decide, rfl, rfl, rfl, rfl, rfl, stuck_stateBlocked⟩

/-- C3 fails on the code: with two downloaders and three jobs that all fail,
a schedule leads to a state in which the three calls of `downloadFn` have
returned an error and from which no schedule reaches the return: no error is
ever returned. -/
theorem downloadParallel_never_returns :
    1 ≤ cfgAllFail.size ∧
    run cfgAllFail schedAllFail = some stateAllFail ∧
    stateAllFail.results = [(0, some "boom a"), (1, some "boom b"), (2, some "boom c")] ∧
    (∀ sched s, exec cfgAllFail stateAllFail sched = some s → s.isReturned = false) ∧
    ∀ sched, downloadParallel cfgAllFail (schedAllFail ++ sched) = none := by
  have hrun : run cfgAllFail schedAllFail = some stateAllFail := by decide
  refine ⟨by decide, hrun, rfl, fun sched s h => ?_, fun sched => ?_⟩
  · rw [exec_of_stuck stuck_stateAllFail sched s h]
    rfl
  · cases hd : downloadParallel cfgAllFail (schedAllFail ++ sched) with
    | none => rfl
    | some r =>
      obtain ⟨s, hs, hm⟩ := downloadParallel_eq_some.1 hd
      unfold run at hs hrun
      rw [exec_append, hrun] at hs
      have := exec_of_stuck stuck_stateAllFail sched s hs
      subst this
      cases hm

/-! ## `downloadParallel`: what cancellation does -/

/-- Once `ctx` is cancelled it stays cancelled, and the loop starts at most
the one goroutine it may be about to start. -/
theorem budget_trans {cfg : Config} {s s' : State} {a : Action} (h : Trans cfg s a s')
    (hc : s.cancelled = true) :
    s'.cancelled = true ∧ s'.units.length + s'.spawnBudget ≤ s.units.length + s.spawnBudget := by
  cases h <;> simp_all [State.spawnBudget]

theorem budget_exec {cfg : Config} :
    ∀ (sched : List Action) (s s' : State), s.cancelled = true → exec cfg s sched = some s' →
      s'.cancelled = true ∧ s'.units.length + s'.spawnBudget ≤ s.units.length + s.spawnBudget
  | [], s, s', hc, h => by simp [exec] at h; subst h; exact ⟨hc, Nat.le_refl _⟩
  | a :: as, s, s', hc, h => by
    simp only [exec] at h
    split at h
    · next s1 h1 =>
      obtain ⟨hc1, hb1⟩ := budget_trans (trans_of_step h1) hc
      obtain ⟨hc2, hb2⟩ := budget_exec as s1 s' hc1 h
      exact ⟨hc2, by omega⟩
    · cases h

theorem length_le_of_trans {cfg : Config} {s s' : State} {a : Action} (h : Trans cfg s a s') :
    s.units.length ≤ s'.units.length := by
  cases h <;> simp

theorem length_le_of_exec {cfg : Config} :
    ∀ (sched : List Action) (s s' : State), exec cfg s sched = some s' →
      s.units.length ≤ s'.units.length
  | [], s, s', h => by simp [exec] at h; subst h; exact Nat.le_refl _
  | a :: as, s, s', h => by
    simp only [exec] at h
    split at h
    · next s1 h1 =>
      have := length_le_of_trans (trans_of_step h1)
      have := length_le_of_exec as s1 s' h
      omega
    · cases h

/-- A step leaves a goroutine where it is or moves it forward; nothing but its
own step moves it. -/
theorem unit_of_trans {cfg : Config} {s s' : State} {a : Action} (h : Trans cfg s a s')
    {i : Nat} {u : UnitPc} (hu : s.units[i]? = some u) :
    s'.units[i]? = some u ∨
      ((a = .unit i ∨ ∃ d, a = .acquire i d) ∧ ∃ v, s'.units[i]? = some v ∧ u.rank < v.rank) := by
  have hlt := lt_length_of_getElem? hu
  have key : ∀ (j : Nat) (w v : UnitPc), s.units[j]? = some w → w.rank < v.rank →
      (s.units.set j v)[i]? = some u ∨
        (j = i ∧ ∃ v', (s.units.set j v)[i]? = some v' ∧ u.rank < v'.rank) := by
    intro j w v hw hlt'
    by_cases hji : j = i
    · subst hji
      rw [hu] at hw; cases hw
      exact Or.inr ⟨rfl, v, List.getElem?_set_self hlt, hlt'⟩
    · exact Or.inl (by rw [List.getElem?_set_ne hji]; exact hu)
  cases h with
  | spawn j p hm hp =>
    left
    show (s.units ++ [UnitPc.acquire])[i]? = some u
    rw [List.getElem?_append_left hlt]; exact hu
  | loopEnd j hm hp => exact Or.inl hu
  | leave j hm hc => exact Or.inl hu
  | next j hm hc => exact Or.inl hu
  | join hm hw => exact Or.inl hu
  | selectErr e rest hm he => exact Or.inl hu
  | selectNone hm he => exact Or.inl hu
  | acquire j d hj hb =>
    rcases key j _ (.running d) hj (by simp [UnitPc.rank]) with h | ⟨h1, h2⟩
    · exact Or.inl h
    · exact Or.inr ⟨Or.inr ⟨d, by rw [h1]⟩, h2⟩
  | jobReturn j d p hj hp =>
    rcases key j _ (.release d (cfg.downloadFn s.cancelled d p)) hj (by simp [UnitPc.rank])
      with h | ⟨h1, h2⟩
    · exact Or.inl h
    · exact Or.inr ⟨Or.inl (by rw [h1]), h2⟩
  | release j d err hj =>
    rcases key j _ (.checkCtx err) hj (by simp [UnitPc.rank]) with h | ⟨h1, h2⟩
    · exact Or.inl h
    · exact Or.inr ⟨Or.inl (by rw [h1]), h2⟩
  | stopped j err hj hc =>
    rcases key j _ .exit hj (by simp [UnitPc.rank]) with h | ⟨h1, h2⟩
    · exact Or.inl h
    · exact Or.inr ⟨Or.inl (by rw [h1]), h2⟩
  | failed j e hj hc =>
    rcases key j _ (.send (wrapError cfg.resourceType e)) hj (by simp [UnitPc.rank])
      with h | ⟨h1, h2⟩
    · exact Or.inl h
    · exact Or.inr ⟨Or.inl (by rw [h1]), h2⟩
  | finished j hj hc =>
    rcases key j _ .exit hj (by simp [UnitPc.rank]) with h | ⟨h1, h2⟩
    · exact Or.inl h
    · exact Or.inr ⟨Or.inl (by rw [h1]), h2⟩
  | send j msg hj hlen =>
    rcases key j _ .cancel hj (by simp [UnitPc.rank]) with h | ⟨h1, h2⟩
    · exact Or.inl h
    · exact Or.inr ⟨Or.inl (by rw [h1]), h2⟩
  | cancel j hj =>
    rcases key j _ .exit hj (by simp [UnitPc.rank]) with h | ⟨h1, h2⟩
    · exact Or.inl h
    · exact Or.inr ⟨Or.inl (by rw [h1]), h2⟩
  | exit j hj =>
    rcases key j _ .done hj (by simp [UnitPc.rank]) with h | ⟨h1, h2⟩
    · exact Or.inl h
    · exact Or.inr ⟨Or.inl (by rw [h1]), h2⟩

theorem unit_of_exec {cfg : Config} :
    ∀ (sched : List Action) (s s' : State) (i : Nat) (u : UnitPc),
      exec cfg s sched = some s' → s.units[i]? = some u →
      s'.units[i]? = some u ∨ ∃ v, s'.units[i]? = some v ∧ u.rank < v.rank
  | [], s, s', i, u, h, hu => by simp [exec] at h; subst h; exact Or.inl hu
  | a :: as, s, s', i, u, h, hu => by
    simp only [exec] at h
    split at h
    · next s1 h1 =>
      rcases unit_of_trans (trans_of_step h1) hu with h2 | ⟨_, v, hv, hlt⟩
      · exact unit_of_exec as s1 s' i u h h2
      · rcases unit_of_exec as s1 s' i v h hv with h3 | ⟨w, hw, hlt'⟩
        · exact Or.inr ⟨v, h3, hlt⟩
        · exact Or.inr ⟨w, hw, by omega⟩
    · cases h

theorem run_then_exec {cfg : Config} {sched sched' : List Action} {s s' : State}
    (h : run cfg sched = some s) (h' : exec cfg s sched' = some s') :
    run cfg (sched ++ sched') = some s' := by
  unfold run at h ⊢
  rw [exec_append, h]; exact h'

/-- Once `ctx` is cancelled, no goroutine comes to stand at `errCh <- msg`:
the errors in `errCh` and the goroutines standing at the send do not become
more. -/
theorem sending_trans {cfg : Config} {s s' : State} {a : Action} (h : Trans cfg s a s')
    (hc : s.cancelled = true) :
    s'.errCh.length + (s'.units.map UnitPc.sending).sum
      ≤ s.errCh.length + (s.units.map UnitPc.sending).sum := by
  have key : ∀ (i : Nat) (u v : UnitPc), s.units[i]? = some u →
      ((s.units.set i v).map UnitPc.sending).sum + u.sending
        = (s.units.map UnitPc.sending).sum + v.sending :=
    fun i u v hu => sum_map_set UnitPc.sending v s.units i u hu
  cases h with
  | spawn i p hm hp => simp [UnitPc.sending]
  | loopEnd i hm hp => exact Nat.le_refl _
  | leave i hm hc' => exact Nat.le_refl _
  | next i hm hc' => exact Nat.le_refl _
  | join hm hw => exact Nat.le_refl _
  | selectErr e rest hm he => simp [he]
  | selectNone hm he => exact Nat.le_refl _
  | acquire i d hu hb =>
    have := key i _ (.running d) hu
    simp [UnitPc.sending] at this ⊢; omega
  | jobReturn i d p hu hp =>
    have := key i _ (.release d (cfg.downloadFn s.cancelled d p)) hu
    simp [UnitPc.sending] at this ⊢; omega
  | release i d err hu =>
    have := key i _ (.checkCtx err) hu
    simp [UnitPc.sending] at this ⊢; omega
  | stopped i err hu hc' =>
    have := key i _ .exit hu
    simp [UnitPc.sending] at this ⊢; omega
  | failed i e hu hc' => rw [hc] at hc'; cases hc'
  | finished i hu hc' => rw [hc] at hc'; cases hc'
  | send i msg hu hlen =>
    have := key i _ .cancel hu
    simp [UnitPc.sending] at this ⊢; omega
  | cancel i hu =>
    have := key i _ .exit hu
    simp [UnitPc.sending] at this ⊢; omega
  | exit i hu =>
    have := key i _ .done hu
    simp [UnitPc.sending] at this ⊢; omega

theorem sending_exec {cfg : Config} :
    ∀ (sched : List Action) (s s' : State), s.cancelled = true → exec cfg s sched = some s' →
      s'.errCh.length + (s'.units.map UnitPc.sending).sum
        ≤ s.errCh.length + (s.units.map UnitPc.sending).sum
  | [], s, s', _, h => by simp [exec] at h; subst h; exact Nat.le_refl _
  | a :: as, s, s', hc, h => by
    simp only [exec] at h
    split at h
    · next s1 h1 =>
      have ht := trans_of_step h1
      have h2 := sending_trans ht hc
      have h3 := sending_exec as s1 s' (budget_trans ht hc).1 h
      omega
    · cases h

/-- Once `ctx` is cancelled, a goroutine that stands neither at the send nor at
`cancel()` never comes to stand there. -/
theorem notReporting_trans {cfg : Config} {s s' : State} {a : Action} (h : Trans cfg s a s')
    (hc : s.cancelled = true) (i : Nat) (hq : s.notReporting i) : s'.notReporting i := by
  have key : ∀ (j : Nat) (u v : UnitPc), s.units[j]? = some u →
      (∀ m, u ≠ .send m) → u ≠ .cancel → (∀ m, v ≠ .send m) → v ≠ .cancel →
      (∀ m, (s.units.set j v)[i]? ≠ some (.send m)) ∧ (s.units.set j v)[i]? ≠ some .cancel := by
    intro j u v hu _ _ hv1 hv2
    rw [getElem?_set_k s.units j i u v hu]
    split
    · exact ⟨fun m hm => hv1 m (by cases hm; rfl), fun hm => hv2 (by cases hm; rfl)⟩
    · exact hq
  have own : ∀ (j : Nat) (u : UnitPc), s.units[j]? = some u →
      ((∃ m, u = .send m) ∨ u = .cancel) → j ≠ i := by
    rintro j u hu hrep rfl
    rcases hrep with ⟨m, rfl⟩ | rfl
    · exact hq.1 m hu
    · exact hq.2 hu
  cases h with
  | spawn j p hm hp =>
    refine ⟨fun m hm' => ?_, fun hm' => ?_⟩
    · rcases getElem?_append_acquire hm' with h | h
      · exact hq.1 m h
      · cases h
    · rcases getElem?_append_acquire hm' with h | h
      · exact hq.2 h
      · cases h
  | loopEnd j hm hp => exact hq
  | leave j hm hc' => exact hq
  | next j hm hc' => exact hq
  | join hm hw => exact hq
  | selectErr e rest hm he => exact hq
  | selectNone hm he => exact hq
  | acquire j d hu hb => exact key j _ _ hu (by simp) (by simp) (by simp) (by simp)
  | jobReturn j d p hu hp => exact key j _ _ hu (by simp) (by simp) (by simp) (by simp)
  | release j d err hu => exact key j _ _ hu (by simp) (by simp) (by simp) (by simp)
  | stopped j err hu hc' => exact key j _ _ hu (by simp) (by simp) (by simp) (by simp)
  | failed j e hu hc' => rw [hc] at hc'; cases hc'
  | finished j hu hc' => rw [hc] at hc'; cases hc'
  | send j msg hu hlen =>
    have hji := own j _ hu (Or.inl ⟨msg, rfl⟩)
    refine ⟨fun m => ?_, ?_⟩
    · show (s.units.set j UnitPc.cancel)[i]? ≠ _
      rw [List.getElem?_set_ne hji]; exact hq.1 m
    · show (s.units.set j UnitPc.cancel)[i]? ≠ _
      rw [List.getElem?_set_ne hji]; exact hq.2
  | cancel j hu =>
    have hji := own j _ hu (Or.inr rfl)
    refine ⟨fun m => ?_, ?_⟩
    · show (s.units.set j UnitPc.exit)[i]? ≠ _
      rw [List.getElem?_set_ne hji]; exact hq.1 m
    · show (s.units.set j UnitPc.exit)[i]? ≠ _
      rw [List.getElem?_set_ne hji]; exact hq.2
  | exit j hu => exact key j _ _ hu (by simp) (by simp) (by simp) (by simp)

theorem notReporting_exec {cfg : Config} (i : Nat) :
    ∀ (sched : List Action) (s s' : State), s.cancelled = true → s.notReporting i →
      exec cfg s sched = some s' → s'.notReporting i
  | [], s, s', _, hq, h => by simp [exec] at h; subst h; exact hq
  | a :: as, s, s', hc, hq, h => by
    simp only [exec] at h
    split at h
    · next s1 h1 =>
      have ht := trans_of_step h1
      exact notReporting_exec i as s1 s' (budget_trans ht hc).1 (notReporting_trans ht hc i hq) h
    · cases h

theorem notReporting_of_beforeTest {s : State} {i : Nat}
    (h : s.units[i]? = none ∨ ∃ u, s.units[i]? = some u ∧ u.beforeTest = true) :
    s.notReporting i := by
  rcases h with h | ⟨u, hu, hb⟩
  · refine ⟨fun m hm => ?_, fun hm => ?_⟩
    · rw [h] at hm; cases hm
    · rw [h] at hm; cases hm
  · refine ⟨fun m hm => ?_, fun hm => ?_⟩
    · rw [hu] at hm; cases hm; cases hb
    · rw [hu] at hm; cases hm; cases hb

/-- C5 (as amended): in every reachable state of `downloadParallel` in which
`ctx` is cancelled: a goroutine that is started and waits for a downloader still
takes a free one and calls `downloadFn`; a running job returns what `downloadFn`
returns under the cancelled `ctx`; a goroutine whose job has returned and that
tests `ctx.Err()` goes straight to its exit, whatever the error of its job,
with `errCh`, `ctx` and every other shared variable unchanged; the loop, at its
test of `ctx.Err()`, leaves; a step of anything but goroutine `i` leaves a
running job of goroutine `i` running; and on every continuation `ctx` stays
cancelled, the loop starts at most one more goroutine (none unless it stands
just before `go func`), a job that was running is still running or has
returned, a goroutine that had not passed its test of `ctx.Err()` (or was not
started) never stands at `errCh <- err` or at `cancel()`, the errors in `errCh`
together with the goroutines standing at the send do not become more, and when
`downloadParallel` has returned every started goroutine has called `downloadFn`
once, its call has returned, and it has finished. -/
theorem cancellation_skips_only_unstarted (cfg : Config) (sched : List Action) (s : State)
    (hrun : run cfg sched = some s) (hc : s.cancelled = true) :
    (∀ i d, s.units[i]? = some .acquire → s.busy[d]? = some false →
      ∃ t, step cfg s (.acquire i d) = some t ∧ t.units[i]? = some (.running d) ∧
        t.calls = s.calls ++ [i]) ∧
    (∀ i d p, s.units[i]? = some (.running d) → cfg.params[i]? = some p →
      step cfg s (.unit i) = some
        { s with units := s.units.set i (.release d (cfg.downloadFn true d p)),
                 results := s.results ++ [(i, cfg.downloadFn true d p)] }) ∧
    (∀ i err, s.units[i]? = some (.checkCtx err) →
      step cfg s (.unit i) = some { s with units := s.units.set i .exit }) ∧
    (∀ i, s.main = .check i → step cfg s .main = some { s with main := .wait }) ∧
    (∀ a t i d, step cfg s a = some t → s.units[i]? = some (.running d) → a ≠ .unit i →
      t.units[i]? = some (.running d)) ∧
    (∀ sched' s', exec cfg s sched' = some s' →
      s'.cancelled = true ∧
      s'.units.length ≤ s.units.length + 1 ∧
      ((∀ i, s.main ≠ .spawn i) → s'.units.length = s.units.length) ∧
      (∀ i d, s.units[i]? = some (.running d) →
        s'.units[i]? = some (.running d) ∨ ∃ err, (i, err) ∈ s'.results) ∧
      (∀ i : Nat,
        (s.units[i]? = none ∨ ∃ u : UnitPc, s.units[i]? = some u ∧ u.beforeTest = true) →
        (∀ m, s'.units[i]? ≠ some (UnitPc.send m)) ∧ s'.units[i]? ≠ some UnitPc.cancel) ∧
      s'.errCh.length + (s'.units.map UnitPc.sending).sum
        ≤ s.errCh.length + (s.units.map UnitPc.sending).sum ∧
      (∀ r, s'.main = .returned r → ∀ i, i < s'.units.length →
        s'.units[i]? = some .done ∧ s'.calls.count i = 1 ∧ ∃ err, (i, err) ∈ s'.results)) := by
  refine ⟨fun i d hu hb => ?_, fun i d p hu hp => ?_, fun i err hu => ?_, fun i hm => ?_,
    fun a t i d hst hu ha => ?_, fun sched' s' h' => ?_⟩
  · have hlt := lt_length_of_getElem? hu
    exact ⟨_, step_of_trans (.acquire i d hu hb), List.getElem?_set_self hlt, rfl⟩
  · simp [step, stepUnit, hu, hp, hc]
  · simp [step, stepUnit, hu, hc]
  · simp [step, stepMain, hm, hc]
  · rcases unit_of_trans (trans_of_step hst) hu with h | ⟨h1 | ⟨d', h1⟩, _⟩
    · exact h
    · exact absurd h1 ha
    · subst h1
      simp [step, stepAcquire, hu] at hst
  · obtain ⟨hc', hb⟩ := budget_exec sched' s s' hc h'
    have hle := length_le_of_exec sched' s s' h'
    have hsound := sound_of_run (run_then_exec hrun h')
    refine ⟨hc', ?_, fun hns => ?_, fun i d hu => ?_, fun i hi => ?_,
      sending_exec sched' s s' hc h', fun r hm i hi => ?_⟩
    · have : s.spawnBudget ≤ 1 := by unfold State.spawnBudget; split <;> simp
      omega
    · have : s.spawnBudget = 0 := by
        unfold State.spawnBudget
        split
        · next j hj => exact absurd hj (hns j)
        · rfl
      omega
    · rcases unit_of_exec sched' s s' i _ h' hu with h | ⟨v, hv, hlt⟩
      · exact Or.inl h
      · have h1 : (UnitPc.running d).rank = 1 := rfl
        exact Or.inr (hsound.2.returnedJob i v hv (by omega))
    · exact notReporting_exec i sched' s s' hc (notReporting_of_beforeTest hi) h'
    · have hd := all_done_of_joined hsound.1 (Or.inr (by simp [State.isReturned, hm]))
      have hdone := getElem?_of_all_done hd hi
      refine ⟨hdone, ?_, hsound.2.returnedJob i _ hdone (by simp [UnitPc.rank])⟩
      rw [hsound.1.callsCount i, hdone]; rfl

/-- C5 (as amended), at two concrete states.  In the first, goroutine 0 has
failed and cancelled while goroutine 1 waits for the downloader; goroutine 1
then takes it and its `downloadFn` is called.  In the second, goroutine 1 has
downloaded after the cancellation and failed too; it goes to its exit and
leaves `errCh` as it is. -/
theorem cancellation_skips_only_unstarted_witness :
    (run cfgFirstFails schedCancel = some stateCancel ∧ stateCancel.cancelled = true ∧
      ∃ t, step cfgFirstFails stateCancel (.acquire 1 0) = some t ∧
        t.units[1]? = some (.running 0) ∧ t.calls = stateCancel.calls ++ [1]) ∧
    (run cfgBothFail schedStopped = some stateStopped ∧ stateStopped.cancelled = true ∧
      stateStopped.units[1]? = some (.checkCtx (some "boom b")) ∧
      step cfgBothFail stateStopped (.unit 1)
        = some { stateStopped with units := stateStopped.units.set 1 .exit }) :=
  ⟨⟨by decide, rfl,
      (cancellation_skips_only_unstarted cfgFirstFails schedCancel stateCancel
        (by decide) rfl).1 1 0 rfl rfl⟩,
    ⟨by decide, rfl, rfl,
      (cancellation_skips_only_unstarted cfgBothFail schedStopped stateStopped
        (by decide) rfl).2.2.1 1 (some "boom b") rfl⟩⟩

/-- C5 fails as stated: after goroutine 0 has cancelled `ctx`, goroutine 1,
which has not yet acquired a downloader, acquires one and `downloadFn` is called
for position 1. -/
theorem cancelled_goroutine_still_downloads :
    (run cfgFirstFails schedCancel).map (fun s => (s.cancelled, s.units[1]?, s.calls))
      = some (true, some .acquire, [0]) ∧
    (run cfgFirstFails (schedCancel ++ [.acquire 1 0])).map
        (fun s => (s.cancelled, s.units[1]?, s.calls))
      = some (true, some (.running 0), [0, 1]) := by
  decide

end Ghsync
